import Mathlib

/-!
Verification of the block-unlocker core of the open-dagnn-pool repository
(src/payouts/unlocker.go) against its natural-language specification.

The Go source is shallowly embedded: pure functions become Lean functions on
exact types (big.Int becomes Int, big.Rat becomes Rat), stateful passes become
explicit state passing over an `UState` record together with an effect trace,
and fallible calls return `Except`.  External collaborators that live outside
src/ (the RPC client, the SQL and redis stores, and the reward tables) are
modelled as oracle parameters: pure functions supplied to the embedded code,
so every theorem quantifies over their behaviour.
-/

/-! ### Binary64 rounding (Go `float64`)

`chargeFee` in unlocker.go computes `new(big.Rat).SetFloat64(fee / 100)`:
the division `fee / 100` is performed in IEEE-754 binary64 and only then
converted (exactly) to a rational.  `fl64` models rounding a rational to the
nearest binary64 value (ties to even) in the normal range; the fee
percentages used by the unlocker lie well inside that range, so subnormal
and overflow handling is not modelled. -/

/-- Exponent of the leading binary digit of a nonzero rational:
the unique e with 2^e ≤ |q| < 2^(e+1). -/
def ratExp2 (q : ℚ) : ℤ :=
  let d : ℤ := (Nat.log2 q.num.natAbs : ℤ) - (Nat.log2 q.den : ℤ)
  if (2 : ℚ) ^ d ≤ |q| then d else d - 1

/-- Round a rational to the nearest integer, ties to even. -/
def roundHalfEven (q : ℚ) : ℤ :=
  let f := ⌊q⌋
  let r := q - (f : ℚ)
  if r < 1 / 2 then f
  else if 1 / 2 < r then f + 1
  else if f % 2 = 0 then f else f + 1

/-- Round a rational to the nearest binary64 value (53-bit significand,
round to nearest, ties to even), in the normal range. -/
def fl64 (q : ℚ) : ℚ :=
  if q = 0 then 0
  else
    let e := ratExp2 q
    ((roundHalfEven (q * (2 : ℚ) ^ ((52 : ℤ) - e)) : ℤ) : ℚ) * (2 : ℚ) ^ (e - (52 : ℤ))

/-! ### Wei to Shannon conversion

`weiToShannonInt64` divides by `util.Shannon`, renders the quotient with
`big.Rat.FloatString(0)` (which rounds the last digit to nearest, halves away
from zero) and re-parses it with `strconv.ParseInt` (which on overflow
returns the clamped int64 value together with an error that the Go code
discards). -/

/-- Modelled from the spec: `util.Shannon = 10^9` wei (the util package is
outside src/). -/
def shannonUnit : ℤ := 10 ^ 9

/-- Round a rational to the nearest integer with halves away from zero:
the semantics of Go `big.Rat.FloatString(0)`. -/
def roundHalfAwayFromZero (q : ℚ) : ℤ :=
  if q < 0 then -⌊-q + 1 / 2⌋ else ⌊q + 1 / 2⌋

/-- Clamp an integer into the int64 range, as `strconv.ParseInt` does on
overflow (the returned error is discarded at the call site). -/
def clampInt64 (z : ℤ) : ℤ :=
  max (-(2 ^ 63)) (min (2 ^ 63 - 1) z)

/-- Embedding of `weiToShannonInt64` (unlocker.go): divide by 10^9, round to
the nearest integer (halves away from zero), clamp to int64. -/
def weiToShannonInt64 (wei : ℚ) : ℤ :=
  clampInt64 (roundHalfAwayFromZero (wei / (shannonUnit : ℚ)))

/-- Spec-side definition, for comparison only: the claimed conversion
"integer division by 10^9, rounding toward zero". -/
def specShannonTowardZero (wei : ℚ) : ℤ :=
  let q := wei / (shannonUnit : ℚ)
  if q < 0 then -⌊-q⌋ else ⌊q⌋

/-! ### Fee charging and per-share reward splitting -/

/-- Embedding of `chargeFee` (unlocker.go): the fee percentage is divided by
100 in binary64 and the resulting float is converted exactly to a rational,
so the effective rate is `fl64 (fee / 100)`.  Returns
(value after fee deduction, fee value). -/
def chargeFee (value : ℚ) (fee : ℚ) : ℚ × ℚ :=
  let feePercent := fl64 (fee / 100)
  let feeValue := value * feePercent
  (value - feeValue, feeValue)

/-- Go-map style additive update on an association list: add `v` to the
entry at `k`, inserting it (with zero start) if absent. -/
def mapAddInt (m : List (String × ℤ)) (k : String) (v : ℤ) : List (String × ℤ) :=
  if (m.lookup k).isSome then
    m.map (fun p => if p.1 = k then (p.1, p.2 + v) else p)
  else m ++ [(k, v)]

/-- Go-map style overwrite on an association list. -/
def mapSetRat (m : List (String × ℚ)) (k : String) (v : ℚ) : List (String × ℚ) :=
  if (m.lookup k).isSome then
    m.map (fun p => if p.1 = k then (p.1, v) else p)
  else m ++ [(k, v)]

/-- Loop body of `calculateRewardsForShares` (unlocker.go): credit one
miner's share.  `big.NewRat(n, total)` is `n / total` (the Go call panics on
`total = 0`; theorems assume a nonzero total). -/
def shareStep (total : ℤ) (reward : ℚ) (acc : List (String × ℤ) × List (String × ℚ))
    (p : String × ℤ) : List (String × ℤ) × List (String × ℚ) :=
  let percent : ℚ := (p.2 : ℚ) / (total : ℚ)
  let workerReward := reward * percent
  (mapAddInt acc.1 p.1 (weiToShannonInt64 workerReward),
   mapSetRat acc.2 p.1 percent)

/-- Embedding of `calculateRewardsForShares` (unlocker.go).  The Go shares
map is represented as an association list (one entry per miner); iteration
order is the list order. -/
def calculateRewardsForShares (shares : List (String × ℤ)) (total : ℤ) (reward : ℚ) :
    List (String × ℤ) × List (String × ℚ) :=
  shares.foldl (shareStep total reward) ([], [])

/-! ### Characterisation of `ratExp2` and evaluation of `fl64` -/

theorem ratExp2_spec (q : ℚ) (hq : q ≠ 0) :
    (2 : ℚ) ^ ratExp2 q ≤ |q| ∧ |q| < (2 : ℚ) ^ (ratExp2 q + 1) := by
  have hnum : q.num ≠ 0 := Rat.num_ne_zero.mpr hq
  have ha0 : q.num.natAbs ≠ 0 := by simpa [Int.natAbs_eq_zero] using hnum
  have hb0 : q.den ≠ 0 := q.den_nz
  have hbQ : (0 : ℚ) < (q.den : ℚ) := by exact_mod_cast q.pos
  have habs : |q| = ((q.num.natAbs : ℚ)) / ((q.den : ℚ)) := by
    conv_lhs => rw [← Rat.num_div_den q]
    rw [abs_div, abs_of_pos hbQ, ← Int.cast_abs, Int.abs_eq_natAbs, Int.cast_natCast]
  have h2a : ((2 : ℚ)) ^ ((Nat.log2 q.num.natAbs : ℤ)) ≤ (q.num.natAbs : ℚ) := by
    rw [zpow_natCast]
    exact_mod_cast (by rw [Nat.log2_eq_log_two]; exact Nat.pow_log_le_self 2 ha0 :
      2 ^ Nat.log2 q.num.natAbs ≤ q.num.natAbs)
  have h2a' : (q.num.natAbs : ℚ) < (2 : ℚ) ^ ((Nat.log2 q.num.natAbs : ℤ) + 1) := by
    rw [show ((Nat.log2 q.num.natAbs : ℤ) + 1) = ((Nat.log2 q.num.natAbs + 1 : ℕ) : ℤ) by
      push_cast; ring, zpow_natCast]
    exact_mod_cast (by rw [Nat.log2_eq_log_two]; exact Nat.lt_pow_succ_log_self one_lt_two _ :
      q.num.natAbs < 2 ^ (Nat.log2 q.num.natAbs + 1))
  have h2b : ((2 : ℚ)) ^ ((Nat.log2 q.den : ℤ)) ≤ (q.den : ℚ) := by
    rw [zpow_natCast]
    exact_mod_cast (by rw [Nat.log2_eq_log_two]; exact Nat.pow_log_le_self 2 hb0 :
      2 ^ Nat.log2 q.den ≤ q.den)
  have h2b' : (q.den : ℚ) < (2 : ℚ) ^ ((Nat.log2 q.den : ℤ) + 1) := by
    rw [show ((Nat.log2 q.den : ℤ) + 1) = ((Nat.log2 q.den + 1 : ℕ) : ℤ) by
      push_cast; ring, zpow_natCast]
    exact_mod_cast (by rw [Nat.log2_eq_log_two]; exact Nat.lt_pow_succ_log_self one_lt_two _ :
      q.den < 2 ^ (Nat.log2 q.den + 1))
  set la : ℤ := (Nat.log2 q.num.natAbs : ℤ) with hla
  set lb : ℤ := (Nat.log2 q.den : ℤ) with hlb
  have key1 : |q| < (2 : ℚ) ^ (la - lb + 1) := by
    rw [habs, div_lt_iff₀ hbQ]
    calc (q.num.natAbs : ℚ) < (2 : ℚ) ^ (la + 1) := h2a'
    _ = (2 : ℚ) ^ (la - lb + 1) * (2 : ℚ) ^ lb := by
        rw [← zpow_add₀ (by norm_num : (2:ℚ) ≠ 0)]; ring_nf
    _ ≤ (2 : ℚ) ^ (la - lb + 1) * (q.den : ℚ) := by
        have := zpow_pos (by norm_num : (0:ℚ) < 2) (la - lb + 1)
        exact mul_le_mul_of_nonneg_left h2b (le_of_lt this)
  have key2 : (2 : ℚ) ^ (la - lb - 1) ≤ |q| := by
    rw [habs, le_div_iff₀ hbQ]
    calc (2 : ℚ) ^ (la - lb - 1) * (q.den : ℚ)
        ≤ (2 : ℚ) ^ (la - lb - 1) * (2 : ℚ) ^ (lb + 1) := by
          have := zpow_pos (by norm_num : (0:ℚ) < 2) (la - lb - 1)
          exact mul_le_mul_of_nonneg_left (le_of_lt h2b') (le_of_lt this)
    _ = (2 : ℚ) ^ la := by rw [← zpow_add₀ (by norm_num : (2:ℚ) ≠ 0)]; ring_nf
    _ ≤ (q.num.natAbs : ℚ) := h2a
  unfold ratExp2
  rw [← hla, ← hlb]
  by_cases h : (2 : ℚ) ^ (la - lb) ≤ |q|
  · rw [if_pos h]
    exact ⟨h, key1⟩
  · rw [if_neg h]
    constructor
    · exact key2
    · have : la - lb - 1 + 1 = la - lb := by ring
      rw [this]
      exact not_le.mp h

theorem two_zpow_unique {x : ℚ} {e f : ℤ} (h1 : (2 : ℚ) ^ e ≤ x) (h2 : x < (2 : ℚ) ^ (e + 1))
    (h3 : (2 : ℚ) ^ f ≤ x) (h4 : x < (2 : ℚ) ^ (f + 1)) : e = f := by
  by_contra hne
  rcases lt_or_gt_of_ne hne with hlt | hgt
  · have hef : e + 1 ≤ f := hlt
    have : (2 : ℚ) ^ (e + 1) ≤ (2 : ℚ) ^ f := zpow_le_zpow_right₀ one_le_two hef
    linarith
  · have hfe : f + 1 ≤ e := hgt
    have : (2 : ℚ) ^ (f + 1) ≤ (2 : ℚ) ^ e := zpow_le_zpow_right₀ one_le_two hfe
    linarith

theorem ratExp2_eq (q : ℚ) (e : ℤ) (hq : q ≠ 0) (h1 : (2 : ℚ) ^ e ≤ |q|)
    (h2 : |q| < (2 : ℚ) ^ (e + 1)) : ratExp2 q = e := by
  obtain ⟨s1, s2⟩ := ratExp2_spec q hq
  exact two_zpow_unique s1 s2 h1 h2

theorem fl64_eq (q : ℚ) (e : ℤ) (hq : q ≠ 0) (h1 : (2 : ℚ) ^ e ≤ |q|)
    (h2 : |q| < (2 : ℚ) ^ (e + 1)) :
    fl64 q = ((roundHalfEven (q * (2 : ℚ) ^ ((52 : ℤ) - e)) : ℤ) : ℚ) * (2 : ℚ) ^ (e - (52 : ℤ)) := by
  unfold fl64
  rw [if_neg hq, ratExp2_eq q e hq h1 h2]


/-! ### Lookup lemmas for the Go-map model -/

theorem lookup_append_of_none {β : Type} (m : List (String × β)) (k : String) (v : β)
    (h : m.lookup k = none) : (m ++ [(k, v)]).lookup k = some v := by
  induction m with
  | nil => simp [List.lookup]
  | cons p t ih =>
      by_cases hk : k = p.1
      · simp [List.lookup, beq_iff_eq.mpr hk] at h
      · have hb : (k == p.1) = false := beq_eq_false_iff_ne.mpr hk
        simp only [List.cons_append, List.lookup, hb] at h ⊢
        exact ih h

theorem lookup_append_ne {β : Type} (m : List (String × β)) (k k' : String) (v : β)
    (h : k' ≠ k) : (m ++ [(k, v)]).lookup k' = m.lookup k' := by
  induction m with
  | nil => simp [List.lookup, beq_eq_false_iff_ne.mpr h]
  | cons p t ih =>
      by_cases hk : k' = p.1
      · simp [List.lookup, beq_iff_eq.mpr hk]
      · have hb : (k' == p.1) = false := beq_eq_false_iff_ne.mpr hk
        simp only [List.cons_append, List.lookup, hb]
        exact ih

theorem lookup_map_update_ne (k k' : String) (v : ℤ) (h : k' ≠ k) :
    ∀ m : List (String × ℤ),
    (List.map (fun p => if p.1 = k then (p.1, p.2 + v) else p) m).lookup k' = m.lookup k' := by
  intro m
  induction m with
  | nil => rfl
  | cons p t ih =>
      rw [List.map_cons]
      by_cases hpk : p.1 = k
      · rw [if_pos hpk]
        have hb : (k' == p.1) = false := beq_eq_false_iff_ne.mpr (by rw [hpk]; exact h)
        simp only [List.lookup, hb]
        exact ih
      · rw [if_neg hpk]
        by_cases hk : k' = p.1
        · simp [List.lookup, beq_iff_eq.mpr hk]
        · have hb : (k' == p.1) = false := beq_eq_false_iff_ne.mpr hk
          simp only [List.lookup, hb]
          exact ih

theorem lookup_mapAddInt_ne (m : List (String × ℤ)) (k k' : String) (v : ℤ)
    (h : k' ≠ k) : (mapAddInt m k v).lookup k' = m.lookup k' := by
  unfold mapAddInt
  split
  · exact lookup_map_update_ne k k' v h m
  · exact lookup_append_ne m k k' v h

theorem lookup_mapAddInt_self_of_none (m : List (String × ℤ)) (k : String) (v : ℤ)
    (h : m.lookup k = none) : (mapAddInt m k v).lookup k = some v := by
  unfold mapAddInt
  rw [h]
  simp only [Option.isSome_none, Bool.false_eq_true, if_false]
  exact lookup_append_of_none m k v h

theorem calcShares_fold_preserves (total : ℤ) (reward : ℚ) (login : String) :
    ∀ (shares : List (String × ℤ)) (acc : List (String × ℤ) × List (String × ℚ)),
    login ∉ shares.map Prod.fst →
    ((shares.foldl (shareStep total reward) acc).1.lookup login = acc.1.lookup login) := by
  intro shares
  induction shares with
  | nil => intro acc _; rfl
  | cons p t ih =>
      intro acc hnot
      simp only [List.map, List.mem_cons, not_or] at hnot
      rw [List.foldl_cons, ih _ hnot.2]
      exact lookup_mapAddInt_ne acc.1 p.1 login _ (hnot.1)

theorem calcShares_fold_lookup (total : ℤ) (reward : ℚ) (login : String) (n : ℤ) :
    ∀ (shares : List (String × ℤ)) (acc : List (String × ℤ) × List (String × ℚ)),
    (shares.map Prod.fst).Nodup → (login, n) ∈ shares → acc.1.lookup login = none →
    ((shares.foldl (shareStep total reward) acc).1.lookup login
      = some (weiToShannonInt64 (reward * ((n : ℚ) / (total : ℚ))))) := by
  intro shares
  induction shares with
  | nil => intro acc _ hmem; exact absurd hmem (List.not_mem_nil _)
  | cons p t ih =>
      intro acc hnodup hmem hnone
      simp only [List.map, List.nodup_cons] at hnodup
      rcases List.mem_cons.mp hmem with heq | hmem'
      · subst heq
        rw [List.foldl_cons, calcShares_fold_preserves total reward login t _ hnodup.1]
        exact lookup_mapAddInt_self_of_none acc.1 login _ hnone
      · have hne : login ≠ p.1 := by
          intro hcontra
          exact hnodup.1 (hcontra ▸ (List.mem_map.mpr ⟨(login, n), hmem', rfl⟩))
        rw [List.foldl_cons]
        apply ih _ hnodup.2 hmem'
        show ((mapAddInt acc.1 p.1 _, mapSetRat acc.2 p.1 _) :
          List (String × ℤ) × List (String × ℚ)).1.lookup login = none
        rw [lookup_mapAddInt_ne acc.1 p.1 login _ hne]
        exact hnone

/-- Claim C1 (amended): for every miner in the round shares, the credited
amount is miners_profit · percent[miner] in wei, divided by 10^9 and rounded
to the NEAREST integer with halves away from zero (the semantics of
`big.Rat.FloatString(0)` followed by `strconv.ParseInt`, which clamps to the
int64 range), not truncated toward zero. -/
theorem c1_reward_conversion_nearest (shares : List (String × ℤ)) (total : ℤ) (reward : ℚ)
    (login : String) (n : ℤ) (hnodup : (shares.map Prod.fst).Nodup)
    (hmem : (login, n) ∈ shares) :
    (calculateRewardsForShares shares total reward).1.lookup login
      = some (clampInt64 (roundHalfAwayFromZero
          (reward * ((n : ℚ) / (total : ℚ)) / (shannonUnit : ℚ)))) := by
  unfold calculateRewardsForShares
  rw [calcShares_fold_lookup total reward login n shares ([], []) hnodup hmem rfl]
  rfl

/-- Witness for C1's amended theorem at a concrete round. -/
theorem c1_reward_conversion_nearest_witness :
    (calculateRewardsForShares [("a", 3), ("b", 1)] 4 (2 * 10 ^ 9)).1.lookup "a"
      = some (clampInt64 (roundHalfAwayFromZero
          ((2 * 10 ^ 9 : ℚ) * ((3 : ℚ) / (4 : ℚ)) / (shannonUnit : ℚ)))) :=
  c1_reward_conversion_nearest [("a", 3), ("b", 1)] 4 (2 * 10 ^ 9) "a" 3
    (by decide) (by decide)

/-- Counterexample to claim C1 as stated: with shares {a: 3, b: 1} and a
miners' profit of 2·10^9 wei, miner b's exact share is 0.5 Shannon, which the
code credits as 1 (round half away from zero) while the claimed
floor-toward-zero conversion gives 0; and the Shannon conversion is not the
only lossy step, since chargeFee's binary64 fee conversion is already
inexact at a 1 percent fee. -/
theorem c1_counterexample :
    (calculateRewardsForShares [("a", 3), ("b", 1)] 4 (2 * 10 ^ 9)).1.lookup "b" = some 1
    ∧ specShannonTowardZero ((2 * 10 ^ 9 : ℚ) * ((1 : ℚ) / (4 : ℚ))) = 0
    ∧ (chargeFee (10 ^ 9 : ℚ) 1).2 ≠ (10 ^ 9 : ℚ) * 1 / 100 := by
  refine ⟨?_, ?_, ?_⟩
  · simp [calculateRewardsForShares, shareStep, mapAddInt, mapSetRat, List.lookup]
    norm_num [weiToShannonInt64, clampInt64, roundHalfAwayFromZero, shannonUnit]
  · unfold specShannonTowardZero shannonUnit
    norm_num
  · have h : fl64 ((1 : ℚ) / 100)
        = ((roundHalfEven ((1 : ℚ) / 100 * (2 : ℚ) ^ ((52 : ℤ) - (-7)))) : ℚ)
          * (2 : ℚ) ^ ((-7 : ℤ) - 52) := by
      apply fl64_eq _ (-7) (by norm_num)
      · rw [abs_of_pos (by norm_num)]; norm_num
      · rw [abs_of_pos (by norm_num)]; norm_num
    rw [show roundHalfEven ((1 : ℚ) / 100 * (2 : ℚ) ^ ((52 : ℤ) - (-7))) = 5764607523034235 by
      unfold roundHalfEven; norm_num] at h
    simp only [chargeFee, h]
    norm_num

/-- Claim C2 (amended): chargeFee(v, p) returns (v − v·c, v·c) where c is the
binary64 value nearest to p/100; the two components always sum exactly to v,
and whenever p/100 is exactly representable in binary64 the pair is exactly
(v − v·p/100, v·p/100).  Apart from this fee-percentage conversion, all
reward arithmetic is exact rational arithmetic until the final integer
conversion to Shannon. -/
theorem c2_chargeFee_exactness (v p : ℚ) :
    (chargeFee v p).1 + (chargeFee v p).2 = v
    ∧ chargeFee v p = (v - v * fl64 (p / 100), v * fl64 (p / 100))
    ∧ (fl64 (p / 100) = p / 100 →
        chargeFee v p = (v - v * (p / 100), v * (p / 100))) := by
  refine ⟨by simp [chargeFee], rfl, ?_⟩
  intro h
  simp [chargeFee, h]

/-- Witness for C2's amended theorem at v = 3, p = 25 (25/100 is exactly
representable in binary64). -/
theorem c2_chargeFee_exactness_witness :
    chargeFee 3 25 = (3 - 3 * ((25 : ℚ) / 100), 3 * ((25 : ℚ) / 100)) := by
  apply (c2_chargeFee_exactness 3 25).2.2
  have h : fl64 ((25 : ℚ) / 100)
      = ((roundHalfEven ((25 : ℚ) / 100 * (2 : ℚ) ^ ((52 : ℤ) - (-2)))) : ℚ)
        * (2 : ℚ) ^ ((-2 : ℤ) - 52) := by
    apply fl64_eq _ (-2) (by norm_num)
    · rw [abs_of_pos (by norm_num)]; norm_num
    · rw [abs_of_pos (by norm_num)]; norm_num
  rw [h, show roundHalfEven ((25 : ℚ) / 100 * (2 : ℚ) ^ ((52 : ℤ) - (-2))) = 4503599627370496 by
    unfold roundHalfEven; norm_num]
  norm_num

/-- Counterexample to claim C2 as stated: at v = 1 and p = 1 the fee value
returned by chargeFee is the binary64 rounding of 1/100, which differs from
the exact rational 1/100, so chargeFee is not exactly (v − v·p/100, v·p/100)
and the reward arithmetic is not exact rational before the Shannon
truncation. -/
theorem c2_counterexample : (chargeFee 1 1).2 ≠ (1 : ℚ) * (1 / 100) := by
  have h : fl64 ((1 : ℚ) / 100)
      = ((roundHalfEven ((1 : ℚ) / 100 * (2 : ℚ) ^ ((52 : ℤ) - (-7)))) : ℚ)
        * (2 : ℚ) ^ ((-7 : ℤ) - 52) := by
    apply fl64_eq _ (-7) (by norm_num)
    · rw [abs_of_pos (by norm_num)]; norm_num
    · rw [abs_of_pos (by norm_num)]; norm_num
  rw [show roundHalfEven ((1 : ℚ) / 100 * (2 : ℚ) ^ ((52 : ℤ) - (-7))) = 5764607523034235 by
    unfold roundHalfEven; norm_num] at h
  simp only [chargeFee, h]
  norm_num

/-! ### Strings: case folding and hex parsing -/

/-- ASCII lower-casing of one character.  `strings.EqualFold` performs
Unicode simple case folding; every value compared by the unlocker is an
ASCII hex string, so the model folds the ASCII range. -/
def asciiLower (c : Char) : Char :=
  if 'A' ≤ c ∧ c ≤ 'Z' then Char.ofNat (c.toNat + 32) else c

/-- Embedding of `strings.EqualFold` on ASCII strings. -/
def equalFold (a b : String) : Bool :=
  a.data.map asciiLower == b.data.map asciiLower

/-- Embedding of `strings.Replace(s, "0x", "", -1)` on the character list:
every non-overlapping occurrence of "0x" is removed, scanning left to
right. -/
def removeHexMarks : List Char → List Char
  | [] => []
  | [c] => [c]
  | c1 :: c2 :: rest =>
      if c1 = '0' ∧ c2 = 'x' then removeHexMarks rest
      else c1 :: removeHexMarks (c2 :: rest)

/-- Value of one hex digit (strconv accepts both letter cases). -/
def hexDigitVal (c : Char) : Option ℕ :=
  if '0' ≤ c ∧ c ≤ '9' then some (c.toNat - '0'.toNat)
  else if 'a' ≤ c ∧ c ≤ 'f' then some (c.toNat - 'a'.toNat + 10)
  else if 'A' ≤ c ∧ c ≤ 'F' then some (c.toNat - 'A'.toNat + 10)
  else none

/-- Accumulating hex parse; any invalid digit fails the whole parse. -/
def parseHexDigits : List Char → ℕ → Option ℕ
  | [], acc => some acc
  | c :: rest, acc =>
      match hexDigitVal c with
      | none => none
      | some d => parseHexDigits rest (acc * 16 + d)

/-- Embedding of `strconv.ParseInt(strings.Replace(s, "0x", "", -1), 16, 64)`
as used for block numbers: all "0x" marks removed, optional sign, base-16
digits, int64 range check.  `none` is the error case (empty digits, invalid
digit, or out of range). -/
def parseHexInt64 (s : String) : Option ℤ :=
  match removeHexMarks s.data with
  | [] => none
  | '-' :: rest =>
      match rest, parseHexDigits rest 0 with
      | [], _ => none
      | _, none => none
      | _, some n => if (n : ℤ) ≤ 2 ^ 63 then some (-(n : ℤ)) else none
  | '+' :: rest =>
      match rest, parseHexDigits rest 0 with
      | [], _ => none
      | _, none => none
      | _, some n => if (n : ℤ) ≤ 2 ^ 63 - 1 then some (n : ℤ) else none
  | cs =>
      match parseHexDigits cs 0 with
      | none => none
      | some n => if (n : ℤ) ≤ 2 ^ 63 - 1 then some (n : ℤ) else none

/-! ### Data model

`types.BlockData` lives outside src/; the model carries exactly the fields
the unlocker reads or writes.  `rpc.GetBlockReply` likewise carries the
fields `matchCandidate`, `handleBlock`, `handleUncle` and
`getExtraRewardForTx` consume. -/

structure Tx where
  gasPrice : String
  hash : String
deriving DecidableEq

structure TxReceipt where
  gasUsed : String
deriving DecidableEq

structure GetBlockReply where
  number : String
  hash : String
  nonce : String
  sealFields : List String
  uncles : List String
  transactions : List Tx
deriving DecidableEq

structure BlockData where
  height : ℤ
  roundHeight : ℤ
  nonce : String
  hash : String
  uncleHeight : ℤ
  orphan : Bool
  reward : ℤ
  extraReward : Option ℤ
  state : ℤ
deriving DecidableEq

/-- Oracles for everything the unlocker consumes from outside src/: the RPC
chain client, the reward tables (`types.GetConstReward`,
`types.GetRewardForUncle`, `types.GetUncleReward`, with the mainNet flag
folded into the oracle) and `util.String2Big`.  RPC calls return either an
error message, a null reply, or a reply. -/
structure Env where
  getPendingBlock : Except String GetBlockReply
  getBlockByHeight : ℤ → Except String (Option GetBlockReply)
  getUncleByBlockNumberAndIndex : ℤ → ℕ → Except String (Option GetBlockReply)
  getTxReceipt : String → Except String (Option TxReceipt)
  getConstReward : ℤ → ℤ
  getRewardForUncle : ℤ → ℤ
  getUncleReward : ℤ → ℤ → ℤ
  string2Big : String → ℤ

/-- The unlocker configuration fields consumed by the two passes. -/
structure UnlockerConfig where
  poolFee : ℚ
  poolFeeAddress : String
  donate : Bool
  depth : ℤ
  immatureDepth : ℤ
  keepTxFees : Bool

/-- Errors produced inside a pass.  Constructors mirror where unlocker.go
creates or wraps an error: `chain`/`store` pass an oracle error through
unchanged, the others are the `fmt.Errorf` wrappings and parse failures. -/
inductive UErr where
  | chain (msg : String)
  | wrongNodeHeight (h : ℤ)
  | uncleFetch (uncleHash : String) (msg : String)
  | nilUncle (h : ℤ)
  | parse (s : String)
  | receipt (msg : String)
  | store (msg : String)
deriving DecidableEq

/-- Observable effects of a pass: every chain read, store read and store
write, in execution order. -/
inductive Eff where
  | getPendingBlock
  | getBlockByHeight (h : ℤ)
  | getUncleByBlockNumberAndIndex (h : ℤ) (i : ℕ)
  | getTxReceipt (txHash : String)
  | getCandidates (maxHeight : ℤ)
  | getImmatureBlocks (maxHeight : ℤ)
  | getRoundShares (roundHeight : ℤ) (nonce : String)
  | writePendingOrphans (blocks : List BlockData)
  | writeOrphan (b : BlockData)
  | writeImmatureBlock (b : BlockData) (rewards : List (String × ℤ))
  | writeMaturedBlock (b : BlockData) (rewards : List (String × ℤ))
  | writeImmatureError (b : BlockData) (state errcode : ℤ)
deriving DecidableEq

/-! ### Candidate matching and block/uncle handling -/

/-- Embedding of `matchCandidate` (unlocker.go).  Note the first test is a
conjunction: a non-empty candidate hash that does NOT fold-equal the block
hash falls through to the nonce and seal-field tests. -/
def matchCandidate (block : GetBlockReply) (candidate : BlockData) : Bool :=
  if 0 < candidate.hash.length ∧ equalFold candidate.hash block.hash = true then true
  else if 0 < block.nonce.length then equalFold block.nonce candidate.nonce
  else if block.sealFields.length = 2 then equalFold candidate.nonce (block.sealFields.getD 1 "")
  else false

/-- Loop of `getExtraRewardForTx` (unlocker.go) over the block transactions:
a receipt fetch error aborts with that error; a null receipt contributes
nothing; otherwise gas_used × gas_price is accumulated. -/
def extraRewardLoop (env : Env) : List Tx → Except String ℤ × List Eff
  | [] => (.ok 0, [])
  | tx :: rest =>
      match env.getTxReceipt tx.hash with
      | .error e => (.error e, [.getTxReceipt tx.hash])
      | .ok none =>
          let r := extraRewardLoop env rest
          (r.1, .getTxReceipt tx.hash :: r.2)
      | .ok (some receipt) =>
          let fee := env.string2Big receipt.gasUsed * env.string2Big tx.gasPrice
          let r := extraRewardLoop env rest
          (r.1.map (fun amt => fee + amt), .getTxReceipt tx.hash :: r.2)

/-- Embedding of `getExtraRewardForTx` (unlocker.go). -/
def getExtraRewardForTx (env : Env) (block : GetBlockReply) : Except String ℤ × List Eff :=
  extraRewardLoop env block.transactions

/-- Embedding of `handleBlock` (unlocker.go): set the authoritative height,
start from the constant reward, add transaction fees (or store them in
extra_reward when keepTxFees), add the uncle-inclusion reward, set hash,
clear orphan.  The uncle_height field is not written. -/
def handleBlock (cfg : UnlockerConfig) (env : Env) (block : GetBlockReply)
    (candidate : BlockData) : Except UErr BlockData × List Eff :=
  match parseHexInt64 block.number with
  | none => (.error (.parse block.number), [])
  | some correctHeight =>
      let c1 : BlockData := { candidate with height := correctHeight }
      let reward := env.getConstReward c1.height
      match getExtraRewardForTx env block with
      | (.error e, tr) => (.error (.receipt e), tr)
      | (.ok extraTxReward, tr) =>
          let c2 : BlockData :=
            if cfg.keepTxFees then { c1 with extraReward := some extraTxReward } else c1
          let reward2 : ℤ := if cfg.keepTxFees then reward else reward + extraTxReward
          let rewardForUncles := env.getRewardForUncle c1.height * (block.uncles.length : ℤ)
          let reward3 := reward2 + rewardForUncles
          (.ok { c2 with orphan := false, hash := block.hash, reward := reward3 }, tr)

/-- Embedding of `handleUncle` (unlocker.go): a negative uncle reward is
clamped to zero. -/
def handleUncle (env : Env) (height : ℤ) (uncle : GetBlockReply)
    (candidate : BlockData) : Except UErr BlockData :=
  match parseHexInt64 uncle.number with
  | none => .error (.parse uncle.number)
  | some uncleHeight =>
      let reward := env.getUncleReward uncleHeight height
      let reward2 : ℤ := if reward < 0 then 0 else reward
      .ok { candidate with
            height := height
            uncleHeight := uncleHeight
            orphan := false
            hash := uncle.hash
            reward := reward2 }

/-! ### Concrete fixtures used by witnesses and counterexamples -/

/-- A block reply template for concrete evaluations. -/
def testBlock : GetBlockReply :=
  { number := "0x64"
    hash := "0xaaa"
    nonce := ""
    sealFields := []
    uncles := []
    transactions := [] }

/-- A candidate template for concrete evaluations. -/
def testCand : BlockData :=
  { height := 100
    roundHeight := 100
    nonce := "0xabc"
    hash := ""
    uncleHeight := 0
    orphan := false
    reward := 0
    extraReward := none
    state := 0 }

/-- An oracle template for concrete evaluations. -/
def testEnv : Env :=
  { getPendingBlock := .error "node down"
    getBlockByHeight := fun _ => .ok none
    getUncleByBlockNumberAndIndex := fun _ _ => .ok none
    getTxReceipt := fun _ => .ok none
    getConstReward := fun _ => 2000000000
    getRewardForUncle := fun _ => 500
    getUncleReward := fun _ _ => -3
    string2Big := fun _ => 0 }

/-- A configuration template for concrete evaluations. -/
def testCfg : UnlockerConfig :=
  { poolFee := 0
    poolFeeAddress := ""
    donate := false
    depth := 32
    immatureDepth := 16
    keepTxFees := false }

/-! ### Claim C3: the match predicate -/

/-- Claim C3 (amended): the match predicate tests, in order: if c.hash is
non-empty AND fold-equal to B.hash, match; OTHERWISE (including the case of
a non-empty but different c.hash, which falls through) if B.nonce is
non-empty the result is the fold-equality of the nonces; else if
B.seal_fields has exactly 2 elements the result is the fold-equality of
c.nonce and B.seal_fields[1]; else no match. -/
theorem c3_match_predicate (block : GetBlockReply) (candidate : BlockData) :
    matchCandidate block candidate = true ↔
      ((0 < candidate.hash.length ∧ equalFold candidate.hash block.hash = true)
       ∨ (¬(0 < candidate.hash.length ∧ equalFold candidate.hash block.hash = true)
          ∧ ((0 < block.nonce.length ∧ equalFold block.nonce candidate.nonce = true)
             ∨ (¬0 < block.nonce.length ∧ block.sealFields.length = 2
                ∧ equalFold candidate.nonce (block.sealFields.getD 1 "") = true)))) := by
  by_cases h1 : 0 < candidate.hash.length ∧ equalFold candidate.hash block.hash = true
  · simp [matchCandidate, h1]
  · by_cases h2 : 0 < block.nonce.length
    · simp [matchCandidate, h1, h2]
    · by_cases h3 : block.sealFields.length = 2
      · simp [matchCandidate, h1, h2, h3]
      · simp [matchCandidate, h1, h2, h3]

/-- Counterexample to claim C3 as stated: with a non-empty candidate hash
"0xaa" that does not fold-equal the block hash "0xbb", the claim predicts no
match, but the code falls through to the nonce rule and matches. -/
theorem c3_counterexample :
    matchCandidate
      { number := "0x1"
        hash := "0xbb"
        nonce := "0x1"
        sealFields := []
        uncles := []
        transactions := [] }
      { testCand with hash := "0xaa", nonce := "0x1" } = true
    ∧ equalFold "0xaa" "0xbb" = false
    ∧ (0 : ℕ) < ("0xaa" : String).length := by
  refine ⟨?_, by decide, by decide⟩
  decide

/-! ### Claim C4: handleBlock -/

/-- Claim C4 (amended): handleBlock sets c.height to the hex-parsed
B.number, c.hash to B.hash, c.orphan to false, and c.reward to
base + uncle_inclusion_reward(c.height) · |B.uncles| where base is the
constant reward plus the transaction fees when keep_tx_fees is false;
when keep_tx_fees is true the fees go to c.extra_reward instead.  The field
c.uncle_height is left UNCHANGED (it is not reset to 0). -/
theorem c4_handleBlock_fields (cfg : UnlockerConfig) (env : Env) (block : GetBlockReply)
    (candidate : BlockData) (h : ℤ) (extra : ℤ) (tr : List Eff)
    (hparse : parseHexInt64 block.number = some h)
    (hextra : getExtraRewardForTx env block = (.ok extra, tr)) :
    handleBlock cfg env block candidate =
      (.ok { candidate with
              height := h
              hash := block.hash
              orphan := false
              extraReward := if cfg.keepTxFees then some extra else candidate.extraReward
              reward := (if cfg.keepTxFees then env.getConstReward h
                         else env.getConstReward h + extra)
                  + env.getRewardForUncle h * (block.uncles.length : ℤ) }, tr) := by
  unfold handleBlock
  rw [hparse, hextra]
  by_cases hk : cfg.keepTxFees <;> simp [hk]

/-- Witness for C4's amended theorem: a canonical block "0x64" with no
transactions and no uncles, against a candidate whose uncle_height is 7. -/
theorem c4_handleBlock_fields_witness :
    handleBlock testCfg testEnv testBlock { testCand with uncleHeight := 7 } =
      (.ok { { testCand with uncleHeight := 7 } with
              height := 100
              hash := testBlock.hash
              orphan := false
              extraReward := if testCfg.keepTxFees then some 0
                             else ({ testCand with uncleHeight := 7 } : BlockData).extraReward
              reward := (if testCfg.keepTxFees then testEnv.getConstReward 100
                         else testEnv.getConstReward 100 + 0)
                  + testEnv.getRewardForUncle 100 * (testBlock.uncles.length : ℤ) }, []) :=
  c4_handleBlock_fields testCfg testEnv testBlock { testCand with uncleHeight := 7 } 100 0 []
    (by decide) rfl

/-- Counterexample to claim C4 as stated: the claim says handleBlock sets
c.uncle_height to 0, but on a candidate carrying uncle_height = 7 the
resulting candidate still has uncle_height 7. -/
theorem c4_counterexample :
    Except.map BlockData.uncleHeight
      (handleBlock testCfg testEnv testBlock { testCand with uncleHeight := 7 }).1 = .ok 7
    ∧ (7 : ℤ) ≠ 0 := by
  constructor
  · simp [handleBlock, testBlock, testCfg, getExtraRewardForTx, extraRewardLoop,
      Except.map, show parseHexInt64 "0x64" = some 100 by decide]
  · decide

/-! ### Claim C8: handleUncle -/

/-- Claim C8 (confirmed): handleUncle sets c.height to the inclusion height,
c.uncle_height to the hex-parsed U.number, c.hash to U.hash, c.orphan to
false, and c.reward to the uncle reward clamped below at 0, so the credited
uncle reward is never negative. -/
theorem c8_handleUncle_fields (env : Env) (height : ℤ) (uncle : GetBlockReply)
    (candidate : BlockData) (uh : ℤ) (hparse : parseHexInt64 uncle.number = some uh) :
    handleUncle env height uncle candidate
      = .ok { candidate with
              height := height
              uncleHeight := uh
              orphan := false
              hash := uncle.hash
              reward := max (env.getUncleReward uh height) 0 }
    ∧ (0 : ℤ) ≤ max (env.getUncleReward uh height) 0 := by
  constructor
  · unfold handleUncle
    rw [hparse]
    have hmax : (if env.getUncleReward uh height < 0 then (0 : ℤ)
        else env.getUncleReward uh height) = max (env.getUncleReward uh height) 0 := by
      rcases lt_or_le (env.getUncleReward uh height) 0 with hlt | hle
      · rw [if_pos hlt, max_eq_right (le_of_lt hlt)]
      · rw [if_neg (not_lt.mpr hle), max_eq_left hle]
    simp [hmax]
  · exact le_max_right _ _

/-- Witness for C8: spec scenario 3, an uncle at number "0x1f0" (496) found
at inclusion height 500 with a computed reward of -3, clamped to 0. -/
theorem c8_handleUncle_fields_witness :
    handleUncle testEnv 500 { testBlock with number := "0x1f0", hash := "0xu" }
        { testCand with height := 500, nonce := "0x11" }
      = .ok { { testCand with height := 500, nonce := "0x11" } with
              height := 500
              uncleHeight := 496
              orphan := false
              hash := ({ testBlock with number := "0x1f0", hash := "0xu" } : GetBlockReply).hash
              reward := max (testEnv.getUncleReward 496 500) 0 }
    ∧ (0 : ℤ) ≤ max (testEnv.getUncleReward 496 500) 0 :=
  c8_handleUncle_fields testEnv 500 { testBlock with number := "0x1f0", hash := "0xu" }
    { testCand with height := 500, nonce := "0x11" } 496 (by decide)

/-! ### Claim C9: getExtraRewardForTx -/

theorem extraRewardLoop_spec (env : Env) : ∀ txs : List Tx,
    ((∃ e, (extraRewardLoop env txs).1 = .error e)
      ↔ ∃ tx ∈ txs, ∃ e, env.getTxReceipt tx.hash = .error e)
    ∧ (∀ v, (extraRewardLoop env txs).1 = .ok v →
        v = (txs.filterMap (fun tx =>
              match env.getTxReceipt tx.hash with
              | .ok (some receipt) =>
                  some (env.string2Big receipt.gasUsed * env.string2Big tx.gasPrice)
              | _ => none)).sum) := by
  intro txs
  induction txs with
  | nil =>
      constructor
      · simp [extraRewardLoop]
      · intro v hv
        simp [extraRewardLoop] at hv
        simp [← hv]
  | cons tx rest ih =>
      rcases hrec : env.getTxReceipt tx.hash with e | r
      · constructor
        · simp only [extraRewardLoop, hrec]
          constructor
          · intro _
            exact ⟨tx, List.mem_cons_self tx rest, e, hrec⟩
          · intro _
            exact ⟨e, rfl⟩
        · intro v hv
          simp only [extraRewardLoop, hrec] at hv
          exact absurd hv (by simp)
      · rcases r with _ | receipt
        · constructor
          · simp only [extraRewardLoop, hrec]
            rw [ih.1]
            constructor
            · rintro ⟨tx', htx', he⟩
              exact ⟨tx', List.mem_cons_of_mem tx htx', he⟩
            · rintro ⟨tx', htx', e', he'⟩
              rcases List.mem_cons.mp htx' with rfl | hmem
              · rw [hrec] at he'
                exact absurd he' (by simp)
              · exact ⟨tx', hmem, e', he'⟩
          · intro v hv
            simp only [extraRewardLoop, hrec] at hv
            rw [List.filterMap_cons]
            simp only [hrec]
            exact ih.2 v hv
        · constructor
          · simp only [extraRewardLoop, hrec]
            constructor
            · rintro ⟨e, he⟩
              rcases hr : (extraRewardLoop env rest).1 with e2 | v2
              · obtain ⟨tx', htx', he'⟩ := ih.1.mp ⟨e2, hr⟩
                exact ⟨tx', List.mem_cons_of_mem tx htx', he'⟩
              · rw [hr] at he
                exact absurd he (by simp [Except.map])
            · rintro ⟨tx', htx', e', he'⟩
              rcases List.mem_cons.mp htx' with rfl | hmem
              · rw [hrec] at he'
                exact absurd he' (by simp)
              · obtain ⟨e2, he2⟩ := ih.1.mpr ⟨tx', hmem, e', he'⟩
                rw [he2]
                exact ⟨e2, rfl⟩
          · intro v hv
            simp only [extraRewardLoop, hrec] at hv
            rcases hr : (extraRewardLoop env rest).1 with e2 | v2
            · rw [hr] at hv
              exact absurd hv (by simp [Except.map])
            · rw [hr] at hv
              simp only [Except.map, Except.ok.injEq] at hv
              rw [List.filterMap_cons]
              simp only [hrec, List.sum_cons, ← hv, ih.2 v2 hr]

/-- Claim C9 (confirmed): getExtraRewardForTx errors exactly when some
receipt fetch errors; a null receipt is skipped, so a successful result is
the sum of gas_used × gas_price over exactly the transactions whose receipt
is non-null. -/
theorem c9_extra_reward (env : Env) (block : GetBlockReply) :
    ((∃ e, (getExtraRewardForTx env block).1 = .error e)
      ↔ ∃ tx ∈ block.transactions, ∃ e, env.getTxReceipt tx.hash = .error e)
    ∧ (∀ v, (getExtraRewardForTx env block).1 = .ok v →
        v = (block.transactions.filterMap (fun tx =>
              match env.getTxReceipt tx.hash with
              | .ok (some receipt) =>
                  some (env.string2Big receipt.gasUsed * env.string2Big tx.gasPrice)
              | _ => none)).sum) :=
  extraRewardLoop_spec env block.transactions

/-- Witness for C9 at a concrete block: one transaction with a receipt (gas
5 × price 5) and one with a null receipt. -/
theorem c9_extra_reward_witness :
    (25 : ℤ) = (([⟨"0x5", "t1"⟩, ⟨"0x7", "t2"⟩] : List Tx).filterMap (fun tx =>
        match ({ testEnv with
                  getTxReceipt := fun s => if s = "t1" then .ok (some ⟨"0x5"⟩) else .ok none
                  string2Big := fun _ => 5 } : Env).getTxReceipt tx.hash with
        | .ok (some _receipt) =>
            some (((5 : ℤ)) * 5)
        | _ => none)).sum := by
  have happ := (c9_extra_reward
    { testEnv with
      getTxReceipt := fun s => if s = "t1" then .ok (some ⟨"0x5"⟩) else .ok none
      string2Big := fun _ => 5 }
    { testBlock with transactions := [⟨"0x5", "t1"⟩, ⟨"0x7", "t2"⟩] }).2 25
  simp only [testBlock] at happ
  exact happ rfl

/-! ### Claim C5: the candidate matcher window scan -/

/-- The scan offsets of `unlockCandidates` (unlocker.go): `i` runs from
`-minDepth` inclusive to `minDepth = 16` exclusive, in ascending order. -/
def windowOffsets : List ℤ := (List.range 32).map (fun (i : ℕ) => (i : ℤ) - 16)

/-- The heights visited for a candidate: `candidate.Height + i`. -/
def windowHeights (c : BlockData) : List ℤ := windowOffsets.map (fun i => c.height + i)

/-- Outcome of the per-candidate scan: matched as a canonical block, matched
as an uncle, or window exhausted. -/
inductive ScanOutcome where
  | asBlock (c : BlockData)
  | asUncle (c : BlockData)
  | orphaned
deriving DecidableEq

/-- Inner uncle loop of `unlockCandidates` (unlocker.go): fetch each uncle
of the block at `height` by index; an error or null reply is fatal; the
first matching uncle is handled and stops the loop. -/
def scanUncles (env : Env) (candidate : BlockData) (height : ℤ) :
    List String → ℕ → Except UErr (Option BlockData) × List Eff
  | [], _ => (.ok none, [])
  | uncleHash :: rest, i =>
      match env.getUncleByBlockNumberAndIndex height i with
      | .error e => (.error (.uncleFetch uncleHash e), [.getUncleByBlockNumberAndIndex height i])
      | .ok none => (.error (.nilUncle height), [.getUncleByBlockNumberAndIndex height i])
      | .ok (some uncle) =>
          if matchCandidate uncle candidate then
            match handleUncle env height uncle candidate with
            | .error e => (.error e, [.getUncleByBlockNumberAndIndex height i])
            | .ok c' => (.ok (some c'), [.getUncleByBlockNumberAndIndex height i])
          else
            let r := scanUncles env candidate height rest (i + 1)
            (r.1, .getUncleByBlockNumberAndIndex height i :: r.2)

/-- Height loop of `unlockCandidates` (unlocker.go): negative heights are
skipped without fetching; a fetch error or null block is fatal; a block
match is handled and stops the scan; otherwise the block's uncles are tried;
an exhausted list is the orphan outcome. -/
def scanHeights (cfg : UnlockerConfig) (env : Env) (candidate : BlockData) :
    List ℤ → Except UErr ScanOutcome × List Eff
  | [] => (.ok .orphaned, [])
  | h :: rest =>
      if h < 0 then scanHeights cfg env candidate rest
      else
        match env.getBlockByHeight h with
        | .error e => (.error (.chain e), [.getBlockByHeight h])
        | .ok none => (.error (.wrongNodeHeight h), [.getBlockByHeight h])
        | .ok (some block) =>
            if matchCandidate block candidate then
              match handleBlock cfg env block candidate with
              | (.error e, tr) => (.error e, .getBlockByHeight h :: tr)
              | (.ok c', tr) => (.ok (.asBlock c'), .getBlockByHeight h :: tr)
            else
              match scanUncles env candidate h block.uncles 0 with
              | (.error e, tr) => (.error e, .getBlockByHeight h :: tr)
              | (.ok (some c'), tr) => (.ok (.asUncle c'), .getBlockByHeight h :: tr)
              | (.ok none, tr) =>
                  let r := scanHeights cfg env candidate rest
                  (r.1, .getBlockByHeight h :: (tr ++ r.2))

/-- The whole matcher for one candidate. -/
def unlockOne (cfg : UnlockerConfig) (env : Env) (candidate : BlockData) :
    Except UErr ScanOutcome × List Eff :=
  scanHeights cfg env candidate (windowHeights candidate)

/-- Embedding of `UnlockResult` (unlocker.go). -/
structure UnlockResult where
  maturedBlocks : List BlockData
  orphanedBlocks : List BlockData
  orphans : ℕ
  uncles : ℕ
  blocks : ℕ
deriving DecidableEq

/-- The zero-valued `UnlockResult` the loop starts from. -/
def emptyUnlockResult : UnlockResult := ⟨[], [], 0, 0, 0⟩

/-- Candidate loop of `unlockCandidates` (unlocker.go), accumulating the
result record; any per-candidate error aborts the whole call. -/
def unlockCandidatesLoop (cfg : UnlockerConfig) (env : Env) :
    List BlockData → UnlockResult → Except UErr UnlockResult × List Eff
  | [], acc => (.ok acc, [])
  | c :: rest, acc =>
      match unlockOne cfg env c with
      | (.error e, tr) => (.error e, tr)
      | (.ok (.asBlock c'), tr) =>
          let r := unlockCandidatesLoop cfg env rest
            { acc with blocks := acc.blocks + 1, maturedBlocks := acc.maturedBlocks ++ [c'] }
          (r.1, tr ++ r.2)
      | (.ok (.asUncle c'), tr) =>
          let r := unlockCandidatesLoop cfg env rest
            { acc with uncles := acc.uncles + 1, maturedBlocks := acc.maturedBlocks ++ [c'] }
          (r.1, tr ++ r.2)
      | (.ok .orphaned, tr) =>
          let r := unlockCandidatesLoop cfg env rest
            { acc with orphans := acc.orphans + 1,
                       orphanedBlocks := acc.orphanedBlocks ++ [{ c with orphan := true }] }
          (r.1, tr ++ r.2)

/-- Embedding of `unlockCandidates` (unlocker.go). -/
def unlockCandidates (cfg : UnlockerConfig) (env : Env) (candidates : List BlockData) :
    Except UErr UnlockResult × List Eff :=
  unlockCandidatesLoop cfg env candidates emptyUnlockResult

/-- Spec-side predicate, from the claim's words: at height h the chain holds
a block that does not match the candidate and none of whose uncles match
(every uncle being fetchable). -/
def noMatchAt (env : Env) (c : BlockData) (h : ℤ) : Prop :=
  ∃ b, env.getBlockByHeight h = .ok (some b) ∧ matchCandidate b c = false ∧
    ∀ i < b.uncles.length, ∃ u, env.getUncleByBlockNumberAndIndex h i = .ok (some u) ∧
      matchCandidate u c = false

/-- Spec-side predicate: at height h a confirming block or uncle exists. -/
def matchesAt (env : Env) (c : BlockData) (h : ℤ) : Prop :=
  ∃ b, env.getBlockByHeight h = .ok (some b) ∧
    (matchCandidate b c = true ∨
      (matchCandidate b c = false ∧ ∃ i < b.uncles.length, ∃ u,
        env.getUncleByBlockNumberAndIndex h i = .ok (some u) ∧ matchCandidate u c = true))

theorem extraRewardLoop_trace (env : Env) : ∀ (txs : List Tx) (eff : Eff),
    eff ∈ (extraRewardLoop env txs).2 → ∃ s, eff = Eff.getTxReceipt s := by
  intro txs
  induction txs with
  | nil => intro eff hmem; simp [extraRewardLoop] at hmem
  | cons tx rest ih =>
      intro eff hmem
      rcases hrec : env.getTxReceipt tx.hash with e | r
      · simp only [extraRewardLoop, hrec] at hmem
        exact ⟨tx.hash, by simpa using hmem⟩
      · rcases r with _ | receipt
        · simp only [extraRewardLoop, hrec] at hmem
          rcases List.mem_cons.mp hmem with rfl | hm
          · exact ⟨tx.hash, rfl⟩
          · exact ih eff hm
        · simp only [extraRewardLoop, hrec] at hmem
          rcases List.mem_cons.mp hmem with rfl | hm
          · exact ⟨tx.hash, rfl⟩
          · exact ih eff hm

theorem handleBlock_trace (cfg : UnlockerConfig) (env : Env) (block : GetBlockReply)
    (candidate : BlockData) (eff : Eff)
    (hmem : eff ∈ (handleBlock cfg env block candidate).2) :
    ∃ s, eff = Eff.getTxReceipt s := by
  unfold handleBlock at hmem
  rcases hp : parseHexInt64 block.number with _ | ch
  · rw [hp] at hmem
    simp at hmem
  · rw [hp] at hmem
    rcases he : getExtraRewardForTx env block with ⟨res, tr⟩
    rw [he] at hmem
    have htr : tr = (extraRewardLoop env block.transactions).2 := by
      have : (extraRewardLoop env block.transactions) = (res, tr) := he
      rw [this]
    rcases res with e | v
    · simp only at hmem
      exact extraRewardLoop_trace env block.transactions eff (htr ▸ hmem)
    · simp only at hmem
      exact extraRewardLoop_trace env block.transactions eff (htr ▸ hmem)

theorem scanUncles_trace (env : Env) (c : BlockData) (h : ℤ) : ∀ (hashes : List String)
    (i : ℕ) (eff : Eff), eff ∈ (scanUncles env c h hashes i).2 →
    ∃ j, eff = Eff.getUncleByBlockNumberAndIndex h j := by
  intro hashes
  induction hashes with
  | nil => intro i eff hmem; simp [scanUncles] at hmem
  | cons uh rest ih =>
      intro i eff hmem
      rcases hrec : env.getUncleByBlockNumberAndIndex h i with e | r
      · simp only [scanUncles, hrec] at hmem
        exact ⟨i, by simpa using hmem⟩
      · rcases r with _ | u
        · simp only [scanUncles, hrec] at hmem
          exact ⟨i, by simpa using hmem⟩
        · by_cases hm : matchCandidate u c = true
          · rcases hu : handleUncle env h u c with e | c'
            · simp only [scanUncles, hrec, if_pos hm, hu] at hmem
              exact ⟨i, by simpa using hmem⟩
            · simp only [scanUncles, hrec, if_pos hm, hu] at hmem
              exact ⟨i, by simpa using hmem⟩
          · simp only [scanUncles, hrec, if_neg hm] at hmem
            rcases List.mem_cons.mp hmem with rfl | hmm
            · exact ⟨i, rfl⟩
            · exact ih (i + 1) eff hmm

theorem scanUncles_none_iff (env : Env) (c : BlockData) (h : ℤ) : ∀ (hashes : List String)
    (i0 : ℕ), ((scanUncles env c h hashes i0).1 = .ok none ↔
      ∀ j < hashes.length, ∃ u, env.getUncleByBlockNumberAndIndex h (i0 + j) = .ok (some u) ∧
        matchCandidate u c = false) := by
  intro hashes
  induction hashes with
  | nil => intro i0; simp [scanUncles]
  | cons uh rest ih =>
      intro i0
      rcases hrec : env.getUncleByBlockNumberAndIndex h i0 with e | r
      · constructor
        · intro hcon
          simp [scanUncles, hrec] at hcon
        · intro hall
          obtain ⟨u, hu, _⟩ := hall 0 (by simp)
          rw [Nat.add_zero, hrec] at hu
          cases hu
      · rcases r with _ | u
        · constructor
          · intro hcon
            simp [scanUncles, hrec] at hcon
          · intro hall
            obtain ⟨u, hu, _⟩ := hall 0 (by simp)
            rw [Nat.add_zero, hrec] at hu
            cases hu
        · by_cases hm : matchCandidate u c = true
          · constructor
            · intro hcon
              rcases hu : handleUncle env h u c with e | c'
              · simp [scanUncles, hrec, if_pos hm, hu] at hcon
              · simp [scanUncles, hrec, if_pos hm, hu] at hcon
            · intro hall
              obtain ⟨u', hu', hm'⟩ := hall 0 (by simp)
              rw [Nat.add_zero, hrec] at hu'
              cases hu'
              rw [hm] at hm'
              cases hm'
          · have heq : (scanUncles env c h (uh :: rest) i0).1
                = (scanUncles env c h rest (i0 + 1)).1 := by
              simp [scanUncles, hrec, if_neg hm]
            rw [heq, ih (i0 + 1)]
            constructor
            · intro hall j hj
              rcases j with _ | j'
              · refine ⟨u, ?_, by simpa using hm⟩
                rw [Nat.add_zero]
                exact hrec
              · have hjlen : j' < rest.length := by
                  simp only [List.length_cons] at hj
                  omega
                have := hall j' hjlen
                rwa [show i0 + 1 + j' = i0 + (j' + 1) by omega] at this
            · intro hall j hj
              have := hall (j + 1) (by simpa using Nat.succ_lt_succ hj)
              rwa [show i0 + (j + 1) = i0 + 1 + j by omega] at this

theorem scanUncles_some (env : Env) (c : BlockData) (h : ℤ) : ∀ (hashes : List String)
    (i0 : ℕ) (c' : BlockData), (scanUncles env c h hashes i0).1 = .ok (some c') →
    ∃ j < hashes.length, ∃ u, env.getUncleByBlockNumberAndIndex h (i0 + j) = .ok (some u) ∧
      matchCandidate u c = true := by
  intro hashes
  induction hashes with
  | nil => intro i0 c' hcon; simp [scanUncles] at hcon
  | cons uh rest ih =>
      intro i0 c' hres
      rcases hrec : env.getUncleByBlockNumberAndIndex h i0 with e | r
      · simp [scanUncles, hrec] at hres
      · rcases r with _ | u
        · simp [scanUncles, hrec] at hres
        · by_cases hm : matchCandidate u c = true
          · refine ⟨0, by simp, u, ?_, hm⟩
            rw [Nat.add_zero]
            exact hrec
          · have heq : (scanUncles env c h (uh :: rest) i0).1
                = (scanUncles env c h rest (i0 + 1)).1 := by
              simp [scanUncles, hrec, if_neg hm]
            rw [heq] at hres
            obtain ⟨j, hj, u', hu', hm'⟩ := ih (i0 + 1) c' hres
            refine ⟨j + 1, by simpa using Nat.succ_lt_succ hj, u', ?_, hm'⟩
            rwa [show i0 + (j + 1) = i0 + 1 + j by omega]

theorem scanHeights_trace (cfg : UnlockerConfig) (env : Env) (c : BlockData) :
    ∀ (hs : List ℤ) (eff : Eff), eff ∈ (scanHeights cfg env c hs).2 →
    ∃ h ∈ hs, 0 ≤ h ∧
      (eff = Eff.getBlockByHeight h ∨ (∃ i, eff = Eff.getUncleByBlockNumberAndIndex h i)
        ∨ ∃ s, eff = Eff.getTxReceipt s) := by
  intro hs
  induction hs with
  | nil => intro eff hmem; simp [scanHeights] at hmem
  | cons h rest ih =>
      intro eff hmem
      by_cases hneg : h < 0
      · simp only [scanHeights, if_pos hneg] at hmem
        obtain ⟨h', hh', hrest⟩ := ih eff hmem
        exact ⟨h', List.mem_cons_of_mem h hh', hrest⟩
      · have h0 : (0 : ℤ) ≤ h := le_of_not_lt hneg
        rcases hfetch : env.getBlockByHeight h with e | r
        · simp only [scanHeights, if_neg hneg, hfetch] at hmem
          exact ⟨h, List.mem_cons_self h rest, h0, Or.inl (by simpa using hmem)⟩
        · rcases r with _ | b
          · simp only [scanHeights, if_neg hneg, hfetch] at hmem
            exact ⟨h, List.mem_cons_self h rest, h0, Or.inl (by simpa using hmem)⟩
          · by_cases hm : matchCandidate b c = true
            · rcases hb : handleBlock cfg env b c with ⟨res, tr⟩
              have htr : tr = (handleBlock cfg env b c).2 := by rw [hb]
              rcases res with e | c2
              · simp only [scanHeights, if_neg hneg, hfetch, if_pos hm, hb] at hmem
                rcases List.mem_cons.mp hmem with rfl | hmm
                · exact ⟨h, List.mem_cons_self h rest, h0, Or.inl rfl⟩
                · obtain ⟨s, rfl⟩ := handleBlock_trace cfg env b c eff (htr ▸ hmm)
                  exact ⟨h, List.mem_cons_self h rest, h0, Or.inr (Or.inr ⟨s, rfl⟩)⟩
              · simp only [scanHeights, if_neg hneg, hfetch, if_pos hm, hb] at hmem
                rcases List.mem_cons.mp hmem with rfl | hmm
                · exact ⟨h, List.mem_cons_self h rest, h0, Or.inl rfl⟩
                · obtain ⟨s, rfl⟩ := handleBlock_trace cfg env b c eff (htr ▸ hmm)
                  exact ⟨h, List.mem_cons_self h rest, h0, Or.inr (Or.inr ⟨s, rfl⟩)⟩
            · rcases hu : scanUncles env c h b.uncles 0 with ⟨ures, utr⟩
              have hutr : utr = (scanUncles env c h b.uncles 0).2 := by rw [hu]
              rcases ures with e | mc
              · simp only [scanHeights, if_neg hneg, hfetch, if_neg hm, hu] at hmem
                rcases List.mem_cons.mp hmem with rfl | hmm
                · exact ⟨h, List.mem_cons_self h rest, h0, Or.inl rfl⟩
                · obtain ⟨j, rfl⟩ := scanUncles_trace env c h b.uncles 0 eff (hutr ▸ hmm)
                  exact ⟨h, List.mem_cons_self h rest, h0, Or.inr (Or.inl ⟨j, rfl⟩)⟩
              · rcases mc with _ | c2
                · simp only [scanHeights, if_neg hneg, hfetch, if_neg hm, hu] at hmem
                  rcases List.mem_cons.mp hmem with rfl | hmm
                  · exact ⟨h, List.mem_cons_self h rest, h0, Or.inl rfl⟩
                  · rcases List.mem_append.mp hmm with hin | hin
                    · obtain ⟨j, rfl⟩ := scanUncles_trace env c h b.uncles 0 eff (hutr ▸ hin)
                      exact ⟨h, List.mem_cons_self h rest, h0, Or.inr (Or.inl ⟨j, rfl⟩)⟩
                    · obtain ⟨h', hh', hrest⟩ := ih eff hin
                      exact ⟨h', List.mem_cons_of_mem h hh', hrest⟩
                · simp only [scanHeights, if_neg hneg, hfetch, if_neg hm, hu] at hmem
                  rcases List.mem_cons.mp hmem with rfl | hmm
                  · exact ⟨h, List.mem_cons_self h rest, h0, Or.inl rfl⟩
                  · obtain ⟨j, rfl⟩ := scanUncles_trace env c h b.uncles 0 eff (hutr ▸ hmm)
                    exact ⟨h, List.mem_cons_self h rest, h0, Or.inr (Or.inl ⟨j, rfl⟩)⟩

theorem scanHeights_orphan_iff (cfg : UnlockerConfig) (env : Env) (c : BlockData) :
    ∀ hs : List ℤ,
    ((scanHeights cfg env c hs).1 = .ok .orphaned ↔ ∀ h ∈ hs, 0 ≤ h → noMatchAt env c h) := by
  intro hs
  induction hs with
  | nil => simp [scanHeights]
  | cons h rest ih =>
      by_cases hneg : h < 0
      · rw [show (scanHeights cfg env c (h :: rest)).1 = (scanHeights cfg env c rest).1 by
          simp [scanHeights, if_pos hneg], ih]
        constructor
        · intro hall h' hmem h0
          rcases List.mem_cons.mp hmem with rfl | hmm
          · exact absurd h0 (by omega)
          · exact hall h' hmm h0
        · intro hall h' hmem h0
          exact hall h' (List.mem_cons_of_mem h hmem) h0
      · have h0 : (0 : ℤ) ≤ h := le_of_not_lt hneg
        rcases hfetch : env.getBlockByHeight h with e | r
        · constructor
          · intro hcon
            simp [scanHeights, if_neg hneg, hfetch] at hcon
          · intro hall
            obtain ⟨b, hb, _⟩ := hall h (List.mem_cons_self h rest) h0
            rw [hfetch] at hb
            cases hb
        · rcases r with _ | b
          · constructor
            · intro hcon
              simp [scanHeights, if_neg hneg, hfetch] at hcon
            · intro hall
              obtain ⟨b, hb, _⟩ := hall h (List.mem_cons_self h rest) h0
              rw [hfetch] at hb
              cases hb
          · by_cases hm : matchCandidate b c = true
            · constructor
              · intro hcon
                rcases hb : handleBlock cfg env b c with ⟨res, tr⟩
                rcases res with e | c2
                · simp [scanHeights, if_neg hneg, hfetch, if_pos hm, hb] at hcon
                · simp [scanHeights, if_neg hneg, hfetch, if_pos hm, hb] at hcon
              · intro hall
                obtain ⟨b', hb', hmf, _⟩ := hall h (List.mem_cons_self h rest) h0
                rw [hfetch] at hb'
                cases hb'
                rw [hm] at hmf
                cases hmf
            · rcases hu : scanUncles env c h b.uncles 0 with ⟨ures, utr⟩
              have hu1 : (scanUncles env c h b.uncles 0).1 = ures := by rw [hu]
              rcases ures with e | mc
              · constructor
                · intro hcon
                  simp [scanHeights, if_neg hneg, hfetch, if_neg hm, hu] at hcon
                · intro hall
                  obtain ⟨b', hb', hmf, hunc⟩ := hall h (List.mem_cons_self h rest) h0
                  rw [hfetch] at hb'
                  cases hb'
                  have := (scanUncles_none_iff env c h b.uncles 0).mpr (by
                    intro j hj
                    have := hunc j hj
                    simpa using this)
                  rw [hu1] at this
                  cases this
              · rcases mc with _ | c2
                · rw [show (scanHeights cfg env c (h :: rest)).1
                      = (scanHeights cfg env c rest).1 by
                    simp [scanHeights, if_neg hneg, hfetch, if_neg hm, hu], ih]
                  have hnm : noMatchAt env c h := by
                    refine ⟨b, hfetch, by simpa using hm, ?_⟩
                    intro i hi
                    have := (scanUncles_none_iff env c h b.uncles 0).mp hu1 i hi
                    simpa using this
                  constructor
                  · intro hall h' hmem h0'
                    rcases List.mem_cons.mp hmem with rfl | hmm
                    · exact hnm
                    · exact hall h' hmm h0'
                  · intro hall h' hmem h0'
                    exact hall h' (List.mem_cons_of_mem h hmem) h0'
                · constructor
                  · intro hcon
                    simp [scanHeights, if_neg hneg, hfetch, if_neg hm, hu] at hcon
                  · intro hall
                    obtain ⟨b', hb', hmf, hunc⟩ := hall h (List.mem_cons_self h rest) h0
                    rw [hfetch] at hb'
                    cases hb'
                    have := (scanUncles_none_iff env c h b.uncles 0).mpr (by
                      intro j hj
                      have := hunc j hj
                      simpa using this)
                    rw [hu1] at this
                    cases this

theorem scanHeights_match (cfg : UnlockerConfig) (env : Env) (c : BlockData) :
    ∀ (hs : List ℤ) (out : ScanOutcome),
    (scanHeights cfg env c hs).1 = .ok out → out ≠ .orphaned →
    ∃ pre h0 post, hs = pre ++ h0 :: post ∧ 0 ≤ h0
      ∧ (∀ h ∈ pre, 0 ≤ h → noMatchAt env c h)
      ∧ matchesAt env c h0
      ∧ (∀ h', Eff.getBlockByHeight h' ∈ (scanHeights cfg env c hs).2 → h' ∈ pre ∨ h' = h0) := by
  intro hs
  induction hs with
  | nil =>
      intro out hres hout
      simp only [scanHeights] at hres
      cases hres
      exact absurd rfl hout
  | cons h rest ih =>
      intro out hres hout
      by_cases hneg : h < 0
      · have hsame : scanHeights cfg env c (h :: rest) = scanHeights cfg env c rest := by
          simp [scanHeights, if_pos hneg]
        rw [hsame] at hres
        obtain ⟨pre, h0, post, hsplit, hh0, hpre, hmatch, htr⟩ := ih out hres hout
        refine ⟨h :: pre, h0, post, by rw [hsplit, List.cons_append], hh0, ?_, hmatch, ?_⟩
        · intro h' hmem h0'
          rcases List.mem_cons.mp hmem with rfl | hmm
          · exact absurd h0' (by omega)
          · exact hpre h' hmm h0'
        · intro h' hin
          rw [hsame] at hin
          rcases htr h' hin with hp | he
          · exact Or.inl (List.mem_cons_of_mem h hp)
          · exact Or.inr he
      · have h0 : (0 : ℤ) ≤ h := le_of_not_lt hneg
        rcases hfetch : env.getBlockByHeight h with e | r
        · simp [scanHeights, if_neg hneg, hfetch] at hres
        · rcases r with _ | b
          · simp [scanHeights, if_neg hneg, hfetch] at hres
          · by_cases hm : matchCandidate b c = true
            · rcases hb : handleBlock cfg env b c with ⟨bres, tr⟩
              have htr2 : tr = (handleBlock cfg env b c).2 := by rw [hb]
              rcases bres with e | c2
              · simp [scanHeights, if_neg hneg, hfetch, if_pos hm, hb] at hres
              · refine ⟨[], h, rest, by simp, h0, by simp, ⟨b, hfetch, Or.inl hm⟩, ?_⟩
                intro h' hin
                simp only [scanHeights, if_neg hneg, hfetch, if_pos hm, hb] at hin
                rcases List.mem_cons.mp hin with heq | hmm
                · exact Or.inr (by injection heq)
                · obtain ⟨s, hs⟩ := handleBlock_trace cfg env b c _ (htr2 ▸ hmm)
                  cases hs
            · rcases hu : scanUncles env c h b.uncles 0 with ⟨ures, utr⟩
              have hu1 : (scanUncles env c h b.uncles 0).1 = ures := by rw [hu]
              have hutr : utr = (scanUncles env c h b.uncles 0).2 := by rw [hu]
              rcases ures with e | mc
              · simp [scanHeights, if_neg hneg, hfetch, if_neg hm, hu] at hres
              · rcases mc with _ | c2
                · have hsame : scanHeights cfg env c (h :: rest)
                      = ((scanHeights cfg env c rest).1,
                         .getBlockByHeight h :: (utr ++ (scanHeights cfg env c rest).2)) := by
                    simp [scanHeights, if_neg hneg, hfetch, if_neg hm, hu]
                  rw [show (scanHeights cfg env c (h :: rest)).1
                      = (scanHeights cfg env c rest).1 by rw [hsame]] at hres
                  obtain ⟨pre, h0', post, hsplit, hh0, hpre, hmatch, htrr⟩ := ih out hres hout
                  have hnm : noMatchAt env c h := by
                    refine ⟨b, hfetch, by simpa using hm, ?_⟩
                    intro i hi
                    have := (scanUncles_none_iff env c h b.uncles 0).mp hu1 i hi
                    simpa using this
                  refine ⟨h :: pre, h0', post, by rw [hsplit, List.cons_append], hh0, ?_,
                    hmatch, ?_⟩
                  · intro h' hmem h0'
                    rcases List.mem_cons.mp hmem with rfl | hmm
                    · exact hnm
                    · exact hpre h' hmm h0'
                  · intro h' hin
                    rw [show (scanHeights cfg env c (h :: rest)).2
                        = .getBlockByHeight h :: (utr ++ (scanHeights cfg env c rest).2) by
                      rw [hsame]] at hin
                    rcases List.mem_cons.mp hin with heq | hmm
                    · exact Or.inl (by rw [show h' = h by injection heq]; exact
                        List.mem_cons_self h pre)
                    · rcases List.mem_append.mp hmm with hinu | hinr
                      · obtain ⟨j, hj⟩ := scanUncles_trace env c h b.uncles 0 _ (hutr ▸ hinu)
                        cases hj
                      · rcases htrr h' hinr with hp | he
                        · exact Or.inl (List.mem_cons_of_mem h hp)
                        · exact Or.inr he
                · have hmex : matchesAt env c h := by
                    refine ⟨b, hfetch, Or.inr ⟨by simpa using hm, ?_⟩⟩
                    obtain ⟨j, hj, u, huj, hmu⟩ := scanUncles_some env c h b.uncles 0 c2 hu1
                    exact ⟨j, hj, u, by simpa using huj, hmu⟩
                  refine ⟨[], h, rest, by simp, h0, by simp, hmex, ?_⟩
                  intro h' hin
                  simp only [scanHeights, if_neg hneg, hfetch, if_neg hm, hu] at hin
                  rcases List.mem_cons.mp hin with heq | hmm
                  · exact Or.inr (by injection heq)
                  · obtain ⟨j, hj⟩ := scanUncles_trace env c h b.uncles 0 _ (hutr ▸ hmm)
                    cases hj

theorem mem_windowOffsets (i : ℤ) : i ∈ windowOffsets ↔ -16 ≤ i ∧ i < 16 := by
  unfold windowOffsets
  rw [List.mem_map]
  constructor
  · rintro ⟨n, hn, rfl⟩
    rw [List.mem_range] at hn
    have hc : (n : ℤ) < 32 := by exact_mod_cast hn
    omega
  · intro hb
    refine ⟨(i + 16).toNat, ?_, ?_⟩
    · rw [List.mem_range]
      omega
    · omega

theorem mem_windowHeights (c : BlockData) (h : ℤ) :
    h ∈ windowHeights c ↔ c.height - 16 ≤ h ∧ h < c.height + 16 := by
  unfold windowHeights
  rw [List.mem_map]
  constructor
  · rintro ⟨i, hi, rfl⟩
    have := (mem_windowOffsets i).mp hi
    omega
  · intro hb
    exact ⟨h - c.height, (mem_windowOffsets _).mpr (by omega), by omega⟩

/-- Claim C5 (confirmed): the matcher scans only heights in the window
[c.height − 16, c.height + 16), never fetches a negative height, classifies
the candidate as orphan exactly when every (non-negative) height in the
window carries a fetchable block with no block or uncle match, marks
c.orphan = true in that case, and on a match stops at the first matching
height: every height before it had no match and no height after it is
fetched. -/
theorem c5_window_scan (cfg : UnlockerConfig) (env : Env) (c : BlockData) :
    (∀ h, Eff.getBlockByHeight h ∈ (unlockOne cfg env c).2 →
        c.height - 16 ≤ h ∧ h < c.height + 16 ∧ 0 ≤ h)
    ∧ (∀ h i, Eff.getUncleByBlockNumberAndIndex h i ∈ (unlockOne cfg env c).2 →
        c.height - 16 ≤ h ∧ h < c.height + 16 ∧ 0 ≤ h)
    ∧ ((unlockOne cfg env c).1 = .ok .orphaned ↔
        ∀ h, c.height - 16 ≤ h → h < c.height + 16 → 0 ≤ h → noMatchAt env c h)
    ∧ ((unlockOne cfg env c).1 = .ok .orphaned →
        unlockCandidates cfg env [c] =
          (.ok { emptyUnlockResult with
                  orphans := 1
                  orphanedBlocks := [{ c with orphan := true }] },
           (unlockOne cfg env c).2))
    ∧ (∀ out, (unlockOne cfg env c).1 = .ok out → out ≠ .orphaned →
        ∃ pre h0 post, windowHeights c = pre ++ h0 :: post ∧ 0 ≤ h0
          ∧ (∀ h ∈ pre, 0 ≤ h → noMatchAt env c h)
          ∧ matchesAt env c h0
          ∧ ∀ h', Eff.getBlockByHeight h' ∈ (unlockOne cfg env c).2 →
              h' ∈ pre ∨ h' = h0) := by
  refine ⟨?_, ?_, ?_, ?_, ?_⟩
  · intro h hmem
    obtain ⟨h', hh', h0, hor⟩ := scanHeights_trace cfg env c (windowHeights c) _ hmem
    rcases hor with heq | ⟨i, heq⟩ | ⟨s, heq⟩
    · injection heq with he
      subst he
      have hb := (mem_windowHeights c h).mp hh'
      exact ⟨hb.1, hb.2, h0⟩
    · cases heq
    · cases heq
  · intro h i hmem
    obtain ⟨h', hh', h0, hor⟩ := scanHeights_trace cfg env c (windowHeights c) _ hmem
    rcases hor with heq | ⟨i', heq⟩ | ⟨s, heq⟩
    · cases heq
    · injection heq with he hi
      subst he
      have hb := (mem_windowHeights c h).mp hh'
      exact ⟨hb.1, hb.2, h0⟩
    · cases heq
  · rw [show (unlockOne cfg env c).1 = (scanHeights cfg env c (windowHeights c)).1 from rfl,
      scanHeights_orphan_iff]
    constructor
    · intro hall h hb1 hb2 h0
      exact hall h ((mem_windowHeights c h).mpr ⟨hb1, hb2⟩) h0
    · intro hall h hmem h0
      have hb := (mem_windowHeights c h).mp hmem
      exact hall h hb.1 hb.2 h0
  · intro horph
    obtain ⟨otr, hpair⟩ : ∃ otr, unlockOne cfg env c = (.ok .orphaned, otr) := by
      refine ⟨(unlockOne cfg env c).2, ?_⟩
      calc unlockOne cfg env c
          = ((unlockOne cfg env c).1, (unlockOne cfg env c).2) := rfl
      _ = _ := by rw [horph]
    have h2 : (unlockOne cfg env c).2 = otr := by rw [hpair]
    rw [h2]
    show unlockCandidatesLoop cfg env [c] emptyUnlockResult = _
    simp [unlockCandidatesLoop, hpair, emptyUnlockResult]
  · intro out hres hout
    exact scanHeights_match cfg env c (windowHeights c) out hres hout

/-- Chain oracle for the C5 witness: every height returns a block whose
nonce fold-matches the test candidate, so the scan stops at the first
window height. -/
def c5Env : Env :=
  { testEnv with
    getBlockByHeight := fun _ =>
      .ok (some { testBlock with number := "0x10", nonce := "0xABC" }) }

/-- Witness for C5 at a candidate of height 16: the first scanned height is
0, and the fetch of height 0 recorded in the trace lies inside the window
and is non-negative. -/
theorem c5_window_scan_witness :
    ({ testCand with height := 16 } : BlockData).height - 16 ≤ 0
    ∧ (0 : ℤ) < ({ testCand with height := 16 } : BlockData).height + 16
    ∧ (0 : ℤ) ≤ 0 :=
  (c5_window_scan testCfg c5Env { testCand with height := 16 }).1 0 (by decide)

/-! ### The two passes: stores, state, reward calculation, credit loops -/

/-- Oracle for the candidate/share stores (the SQL database and redis
backend live outside src/; both are modelled as one store oracle, matching
the calls the unlocker makes). -/
structure Store where
  getCandidates : ℤ → Except String (List BlockData)
  getImmatureBlocks : ℤ → Except String (List BlockData)
  getRoundShares : ℤ → String → Except String (List (String × ℤ))
  writePendingOrphans : List BlockData → Except String Unit
  writeOrphan : BlockData → Except String Unit
  writeImmatureBlock : BlockData → List (String × ℤ) → List (String × ℚ) → Except String Unit
  writeMaturedBlock : BlockData → List (String × ℤ) → List (String × ℚ) → Except String Unit
  writeImmatureError : BlockData → ℤ → ℤ → Except String Unit

/-- The sticky unlocker state: `halt` and `lastFail` (unlocker.go fields of
`BlockUnlocker`). -/
structure UState where
  halt : Bool
  lastFail : Option UErr
deriving DecidableEq

/-- The constant `donationFee = 10.0` (unlocker.go). -/
def donationFee : ℚ := 10

/-- The constant `donationAccount` (unlocker.go). -/
def donationAccount : String := "0xb05146ed865f0ab592dd763bd84a2191700f3dfb"

/-- Embedding of `strings.ToLower` on ASCII strings. -/
def toLowerStr (s : String) : String := String.mk (s.data.map asciiLower)

/-- Embedding of `calculateRewards` (unlocker.go).  The result is `none`
when the round has no recorded shares (the Go function returns all-nil
values with a nil error); otherwise it is
(revenue, minersProfit, poolProfit, rewards, percents). -/
def calculateRewards (cfg : UnlockerConfig) (store : Store) (block : BlockData) :
    Except String (Option (ℚ × ℚ × ℚ × List (String × ℤ) × List (String × ℚ))) × List Eff :=
  let revenue : ℚ := (block.reward : ℚ)
  let mp := chargeFee revenue cfg.poolFee
  match store.getRoundShares block.roundHeight block.nonce with
  | .error e => (.error e, [.getRoundShares block.roundHeight block.nonce])
  | .ok shares =>
      if shares.length = 0 then (.ok none, [.getRoundShares block.roundHeight block.nonce])
      else
        let total := (shares.map Prod.snd).sum
        let rp := calculateRewardsForShares shares total mp.1
        let revenuePool : ℚ × ℚ :=
          match block.extraReward with
          | some extra => (revenue + (extra : ℚ), mp.2 + (extra : ℚ))
          | none => (revenue, mp.2)
        let donated : ℚ × List (String × ℤ) :=
          if cfg.donate then
            let d := chargeFee revenuePool.2 donationFee
            (d.1, mapAddInt rp.1 (toLowerStr donationAccount) (weiToShannonInt64 d.2))
          else (revenuePool.2, rp.1)
        let rewards3 : List (String × ℤ) :=
          if cfg.poolFeeAddress.length ≠ 0 then
            mapAddInt donated.2 (toLowerStr cfg.poolFeeAddress) (weiToShannonInt64 donated.1)
          else donated.2
        (.ok (some (revenuePool.1, mp.1, donated.1, rewards3, rp.2)),
         [.getRoundShares block.roundHeight block.nonce])

/-- Body of Pass 1's credit loop (unlocker.go, unlockPendingBlocks): a
reward-calculation error aborts the pass; an empty round writes the
"unable to credit" marker (state 0, errcode 1), discarding the write's
error result, and continues; otherwise the immature block and credits are
written, halting on a write error. -/
def creditImmatureBlockOne (cfg : UnlockerConfig) (store : Store) (block : BlockData) :
    Option UErr × List Eff :=
  match calculateRewards cfg store block with
  | (.error e, tr) => (some (.store e), tr)
  | (.ok none, tr) =>
      let _ := store.writeImmatureError block 0 1
      (none, tr ++ [.writeImmatureError block 0 1])
  | (.ok (some out), tr) =>
      match store.writeImmatureBlock block out.2.2.2.1 out.2.2.2.2 with
      | .error e => (some (.store e), tr ++ [.writeImmatureBlock block out.2.2.2.1])
      | .ok _ => (none, tr ++ [.writeImmatureBlock block out.2.2.2.1])

/-- Body of Pass 2's credit loop (unlocker.go, unlockAndCreditMiners): same
shape as Pass 1 but the marker carries (block.state, errcode 2) and the
block is written as matured. -/
def creditMaturedBlockOne (cfg : UnlockerConfig) (store : Store) (block : BlockData) :
    Option UErr × List Eff :=
  match calculateRewards cfg store block with
  | (.error e, tr) => (some (.store e), tr)
  | (.ok none, tr) =>
      let _ := store.writeImmatureError block block.state 2
      (none, tr ++ [.writeImmatureError block block.state 2])
  | (.ok (some out), tr) =>
      match store.writeMaturedBlock block out.2.2.2.1 out.2.2.2.2 with
      | .error e => (some (.store e), tr ++ [.writeMaturedBlock block out.2.2.2.1])
      | .ok _ => (none, tr ++ [.writeMaturedBlock block out.2.2.2.1])

/-- Pass 1's credit loop over the matured blocks. -/
def creditImmatureLoop (cfg : UnlockerConfig) (store : Store) :
    List BlockData → Option UErr × List Eff
  | [] => (none, [])
  | b :: rest =>
      match creditImmatureBlockOne cfg store b with
      | (some e, tr) => (some e, tr)
      | (none, tr) =>
          let r := creditImmatureLoop cfg store rest
          (r.1, tr ++ r.2)

/-- Pass 2's credit loop over the matured blocks. -/
def creditMaturedLoop (cfg : UnlockerConfig) (store : Store) :
    List BlockData → Option UErr × List Eff
  | [] => (none, [])
  | b :: rest =>
      match creditMaturedBlockOne cfg store b with
      | (some e, tr) => (some e, tr)
      | (none, tr) =>
          let r := creditMaturedLoop cfg store rest
          (r.1, tr ++ r.2)

/-- Pass 2's per-orphan write loop; the first error aborts. -/
def writeOrphanLoop (store : Store) : List BlockData → Option String × List Eff
  | [] => (none, [])
  | b :: rest =>
      match store.writeOrphan b with
      | .error e => (some e, [.writeOrphan b])
      | .ok _ =>
          let r := writeOrphanLoop store rest
          (r.1, .writeOrphan b :: r.2)

/-- Embedding of `unlockPendingBlocks` (unlocker.go), Pass 1.  Returns the
new unlocker state and the trace of chain and store calls. -/
def unlockPendingBlocks (cfg : UnlockerConfig) (env : Env) (store : Store) (st : UState) :
    UState × List Eff :=
  if st.halt then (st, [])
  else
    match env.getPendingBlock with
    | .error e => ({ halt := true, lastFail := some (.chain e) }, [.getPendingBlock])
    | .ok current =>
        match parseHexInt64 current.number with
        | none => ({ halt := true, lastFail := some (.parse current.number) },
            [.getPendingBlock])
        | some currentHeight =>
            let mh := currentHeight - cfg.immatureDepth
            match store.getCandidates mh with
            | .error e => ({ halt := true, lastFail := some (.store e) },
                [.getPendingBlock, .getCandidates mh])
            | .ok candidates =>
                if candidates.length = 0 then
                  (st, [.getPendingBlock, .getCandidates mh])
                else
                  match unlockCandidates cfg env candidates with
                  | (.error e, tr) => ({ halt := true, lastFail := some e },
                      .getPendingBlock :: .getCandidates mh :: tr)
                  | (.ok result, tr) =>
                      match store.writePendingOrphans result.orphanedBlocks with
                      | .error e => ({ halt := true, lastFail := some (.store e) },
                          .getPendingBlock :: .getCandidates mh :: tr
                            ++ [.writePendingOrphans result.orphanedBlocks])
                      | .ok _ =>
                          let cl := creditImmatureLoop cfg store result.maturedBlocks
                          (match cl.1 with
                           | some e => { halt := true, lastFail := some e }
                           | none => st,
                           .getPendingBlock :: .getCandidates mh :: tr
                             ++ [.writePendingOrphans result.orphanedBlocks] ++ cl.2)

/-- Embedding of `unlockAndCreditMiners` (unlocker.go), Pass 2. -/
def unlockAndCreditMiners (cfg : UnlockerConfig) (env : Env) (store : Store) (st : UState) :
    UState × List Eff :=
  if st.halt then (st, [])
  else
    match env.getPendingBlock with
    | .error e => ({ halt := true, lastFail := some (.chain e) }, [.getPendingBlock])
    | .ok current =>
        match parseHexInt64 current.number with
        | none => ({ halt := true, lastFail := some (.parse current.number) },
            [.getPendingBlock])
        | some currentHeight =>
            let mh := currentHeight - cfg.depth
            match store.getImmatureBlocks mh with
            | .error e => ({ halt := true, lastFail := some (.store e) },
                [.getPendingBlock, .getImmatureBlocks mh])
            | .ok immature =>
                if immature.length = 0 then
                  (st, [.getPendingBlock, .getImmatureBlocks mh])
                else
                  match unlockCandidates cfg env immature with
                  | (.error e, tr) => ({ halt := true, lastFail := some e },
                      .getPendingBlock :: .getImmatureBlocks mh :: tr)
                  | (.ok result, tr) =>
                      match writeOrphanLoop store result.orphanedBlocks with
                      | (some e, otr) => ({ halt := true, lastFail := some (.store e) },
                          .getPendingBlock :: .getImmatureBlocks mh :: tr ++ otr)
                      | (none, otr) =>
                          let cl := creditMaturedLoop cfg store result.maturedBlocks
                          (match cl.1 with
                           | some e => { halt := true, lastFail := some e }
                           | none => st,
                           .getPendingBlock :: .getImmatureBlocks mh :: tr ++ otr ++ cl.2)

/-! ### Claim C7: the no-shares marker -/

/-- Claim C7 (confirmed): for a matured candidate whose round shares are
empty, Pass 1's loop body writes exactly the marker
write_immature_error(c, 0, 1), Pass 2's loop body writes exactly
write_immature_error(c, c.state, 2), neither writes per-miner credits
(the traces contain no write_immature_block / write_matured_block), neither
aborts (the bodies signal `none`), and both loops continue with the rest of
the candidates. -/
theorem c7_no_shares_marker (cfg : UnlockerConfig) (store : Store) (b : BlockData)
    (hshares : store.getRoundShares b.roundHeight b.nonce = .ok []) :
    creditImmatureBlockOne cfg store b
      = (none, [.getRoundShares b.roundHeight b.nonce, .writeImmatureError b 0 1])
    ∧ creditMaturedBlockOne cfg store b
      = (none, [.getRoundShares b.roundHeight b.nonce, .writeImmatureError b b.state 2])
    ∧ (∀ rest, creditImmatureLoop cfg store (b :: rest)
        = ((creditImmatureLoop cfg store rest).1,
           [.getRoundShares b.roundHeight b.nonce, .writeImmatureError b 0 1]
             ++ (creditImmatureLoop cfg store rest).2))
    ∧ (∀ rest, creditMaturedLoop cfg store (b :: rest)
        = ((creditMaturedLoop cfg store rest).1,
           [.getRoundShares b.roundHeight b.nonce, .writeImmatureError b b.state 2]
             ++ (creditMaturedLoop cfg store rest).2)) := by
  have h1 : creditImmatureBlockOne cfg store b
      = (none, [.getRoundShares b.roundHeight b.nonce, .writeImmatureError b 0 1]) := by
    simp [creditImmatureBlockOne, calculateRewards, hshares]
  have h2 : creditMaturedBlockOne cfg store b
      = (none, [.getRoundShares b.roundHeight b.nonce, .writeImmatureError b b.state 2]) := by
    simp [creditMaturedBlockOne, calculateRewards, hshares]
  refine ⟨h1, h2, ?_, ?_⟩
  · intro rest
    simp [creditImmatureLoop, h1]
  · intro rest
    simp [creditMaturedLoop, h2]

/-- Store oracle for the C7 witness: empty round shares, and a marker write
that even fails (its result is discarded). -/
def c7Store : Store :=
  { getCandidates := fun _ => .ok []
    getImmatureBlocks := fun _ => .ok []
    getRoundShares := fun _ _ => .ok []
    writePendingOrphans := fun _ => .ok ()
    writeOrphan := fun _ => .ok ()
    writeImmatureBlock := fun _ _ _ => .ok ()
    writeMaturedBlock := fun _ _ _ => .ok ()
    writeImmatureError := fun _ _ _ => .error "marker failed" }

/-- Witness for C7 at a concrete candidate and store. -/
theorem c7_no_shares_marker_witness :
    creditImmatureBlockOne testCfg c7Store testCand
      = (none, [.getRoundShares testCand.roundHeight testCand.nonce,
                .writeImmatureError testCand 0 1]) :=
  (c7_no_shares_marker testCfg c7Store testCand rfl).1

/-! ### Claim C10: the marker write's error result is discarded -/

theorem creditImmatureLoop_wie_congr (cfg : UnlockerConfig) (store : Store)
    (f : BlockData → ℤ → ℤ → Except String Unit) :
    ∀ bs, creditImmatureLoop cfg { store with writeImmatureError := f } bs
        = creditImmatureLoop cfg store bs := by
  intro bs
  induction bs with
  | nil => rfl
  | cons b rest ih =>
      have hone : creditImmatureBlockOne cfg { store with writeImmatureError := f } b
          = creditImmatureBlockOne cfg store b := by
        cases store
        rfl
      simp only [creditImmatureLoop, hone, ih]

theorem creditMaturedLoop_wie_congr (cfg : UnlockerConfig) (store : Store)
    (f : BlockData → ℤ → ℤ → Except String Unit) :
    ∀ bs, creditMaturedLoop cfg { store with writeImmatureError := f } bs
        = creditMaturedLoop cfg store bs := by
  intro bs
  induction bs with
  | nil => rfl
  | cons b rest ih =>
      have hone : creditMaturedBlockOne cfg { store with writeImmatureError := f } b
          = creditMaturedBlockOne cfg store b := by
        cases store
        rfl
      simp only [creditMaturedLoop, hone, ih]

theorem writeOrphanLoop_wie_congr (store : Store)
    (f : BlockData → ℤ → ℤ → Except String Unit) :
    ∀ bs, writeOrphanLoop { store with writeImmatureError := f } bs
        = writeOrphanLoop store bs := by
  intro bs
  induction bs with
  | nil => rfl
  | cons b rest ih =>
      have hproj : ({ store with writeImmatureError := f } : Store).writeOrphan
          = store.writeOrphan := by
        cases store
        rfl
      simp only [writeOrphanLoop, hproj, ih]

/-- Claim C10 (confirmed): both passes discard the error result of the
write_immature_error call: replacing that store operation's results by any
function at all (in particular an always-failing one) leaves the resulting
unlocker state and the whole effect trace unchanged, so a failing marker
write never sets halt, never aborts the pass, and processing continues
identically. -/
theorem c10_marker_error_discarded (cfg : UnlockerConfig) (env : Env) (store : Store)
    (f : BlockData → ℤ → ℤ → Except String Unit) (st : UState) :
    unlockPendingBlocks cfg env { store with writeImmatureError := f } st
      = unlockPendingBlocks cfg env store st
    ∧ unlockAndCreditMiners cfg env { store with writeImmatureError := f } st
      = unlockAndCreditMiners cfg env store st := by
  have hgc : ({ store with writeImmatureError := f } : Store).getCandidates
      = store.getCandidates := by cases store; rfl
  have hgi : ({ store with writeImmatureError := f } : Store).getImmatureBlocks
      = store.getImmatureBlocks := by cases store; rfl
  have hwpo : ({ store with writeImmatureError := f } : Store).writePendingOrphans
      = store.writePendingOrphans := by cases store; rfl
  constructor
  · simp only [unlockPendingBlocks, hgc, hwpo, creditImmatureLoop_wie_congr]
  · simp only [unlockAndCreditMiners, hgi, writeOrphanLoop_wie_congr,
      creditMaturedLoop_wie_congr]

/-! ### Claim C6: halt semantics -/

/-- Claim C6 (amended): once halt is true both passes return immediately
with an empty effect trace (no ChainClient calls, no store reads or
writes) and an unchanged state, until a fresh Unlocker is constructed; a
pass either leaves the state unchanged or sets halt together with
last_fail; and every error site of both passes — the pending-block fetch
and the height parse (shared), Pass 1's getCandidates, matcher,
writePendingOrphans and immature credit loop, and Pass 2's
getImmatureBlocks, matcher, per-block writeOrphan loop and matured credit
loop — sets halt = true, records the error in last_fail, and aborts the
pass at that point.  (The one exception, the discarded result of
write_immature_error, is the subject of C10.) -/
theorem c6_halt_semantics (cfg : UnlockerConfig) (env : Env) (store : Store) (st : UState) :
    (st.halt = true →
      unlockPendingBlocks cfg env store st = (st, [])
      ∧ unlockAndCreditMiners cfg env store st = (st, []))
    ∧ ((unlockPendingBlocks cfg env store st).1 = st
        ∨ ∃ e, (unlockPendingBlocks cfg env store st).1 = ⟨true, some e⟩)
    ∧ ((unlockAndCreditMiners cfg env store st).1 = st
        ∨ ∃ e, (unlockAndCreditMiners cfg env store st).1 = ⟨true, some e⟩)
    ∧ (∀ m, st.halt = false → env.getPendingBlock = .error m →
        unlockPendingBlocks cfg env store st
          = (⟨true, some (.chain m)⟩, [.getPendingBlock])
        ∧ unlockAndCreditMiners cfg env store st
          = (⟨true, some (.chain m)⟩, [.getPendingBlock]))
    ∧ (∀ cur, st.halt = false → env.getPendingBlock = .ok cur →
        parseHexInt64 cur.number = none →
        unlockPendingBlocks cfg env store st
          = (⟨true, some (.parse cur.number)⟩, [.getPendingBlock])
        ∧ unlockAndCreditMiners cfg env store st
          = (⟨true, some (.parse cur.number)⟩, [.getPendingBlock]))
    ∧ (∀ m cur hgt, st.halt = false → env.getPendingBlock = .ok cur →
        parseHexInt64 cur.number = some hgt →
        store.getCandidates (hgt - cfg.immatureDepth) = .error m →
        unlockPendingBlocks cfg env store st
          = (⟨true, some (.store m)⟩,
             [.getPendingBlock, .getCandidates (hgt - cfg.immatureDepth)]))
    ∧ (∀ e cur hgt cands tr, st.halt = false → env.getPendingBlock = .ok cur →
        parseHexInt64 cur.number = some hgt →
        store.getCandidates (hgt - cfg.immatureDepth) = .ok cands →
        cands.length ≠ 0 →
        unlockCandidates cfg env cands = (.error e, tr) →
        unlockPendingBlocks cfg env store st
          = (⟨true, some e⟩,
             .getPendingBlock :: .getCandidates (hgt - cfg.immatureDepth) :: tr))
    ∧ (∀ m cur hgt cands result tr, st.halt = false → env.getPendingBlock = .ok cur →
        parseHexInt64 cur.number = some hgt →
        store.getCandidates (hgt - cfg.immatureDepth) = .ok cands →
        cands.length ≠ 0 →
        unlockCandidates cfg env cands = (.ok result, tr) →
        store.writePendingOrphans result.orphanedBlocks = .error m →
        unlockPendingBlocks cfg env store st
          = (⟨true, some (.store m)⟩,
             .getPendingBlock :: .getCandidates (hgt - cfg.immatureDepth) :: tr
               ++ [.writePendingOrphans result.orphanedBlocks]))
    ∧ (∀ e cur hgt cands result tr, st.halt = false → env.getPendingBlock = .ok cur →
        parseHexInt64 cur.number = some hgt →
        store.getCandidates (hgt - cfg.immatureDepth) = .ok cands →
        cands.length ≠ 0 →
        unlockCandidates cfg env cands = (.ok result, tr) →
        store.writePendingOrphans result.orphanedBlocks = .ok () →
        (creditImmatureLoop cfg store result.maturedBlocks).1 = some e →
        (unlockPendingBlocks cfg env store st).1 = ⟨true, some e⟩)
    ∧ (∀ m cur hgt, st.halt = false → env.getPendingBlock = .ok cur →
        parseHexInt64 cur.number = some hgt →
        store.getImmatureBlocks (hgt - cfg.depth) = .error m →
        unlockAndCreditMiners cfg env store st
          = (⟨true, some (.store m)⟩,
             [.getPendingBlock, .getImmatureBlocks (hgt - cfg.depth)]))
    ∧ (∀ e cur hgt imm tr, st.halt = false → env.getPendingBlock = .ok cur →
        parseHexInt64 cur.number = some hgt →
        store.getImmatureBlocks (hgt - cfg.depth) = .ok imm →
        imm.length ≠ 0 →
        unlockCandidates cfg env imm = (.error e, tr) →
        unlockAndCreditMiners cfg env store st
          = (⟨true, some e⟩,
             .getPendingBlock :: .getImmatureBlocks (hgt - cfg.depth) :: tr))
    ∧ (∀ m cur hgt imm result tr otr, st.halt = false → env.getPendingBlock = .ok cur →
        parseHexInt64 cur.number = some hgt →
        store.getImmatureBlocks (hgt - cfg.depth) = .ok imm →
        imm.length ≠ 0 →
        unlockCandidates cfg env imm = (.ok result, tr) →
        writeOrphanLoop store result.orphanedBlocks = (some m, otr) →
        unlockAndCreditMiners cfg env store st
          = (⟨true, some (.store m)⟩,
             .getPendingBlock :: .getImmatureBlocks (hgt - cfg.depth) :: tr ++ otr))
    ∧ (∀ e cur hgt imm result tr otr, st.halt = false → env.getPendingBlock = .ok cur →
        parseHexInt64 cur.number = some hgt →
        store.getImmatureBlocks (hgt - cfg.depth) = .ok imm →
        imm.length ≠ 0 →
        unlockCandidates cfg env imm = (.ok result, tr) →
        writeOrphanLoop store result.orphanedBlocks = (none, otr) →
        (creditMaturedLoop cfg store result.maturedBlocks).1 = some e →
        (unlockAndCreditMiners cfg env store st).1 = ⟨true, some e⟩) := by
  constructor
  · intro hh
    constructor
    · simp [unlockPendingBlocks, hh]
    · simp [unlockAndCreditMiners, hh]
  constructor
  · by_cases hh : st.halt
    · left
      simp [unlockPendingBlocks, hh]
    · unfold unlockPendingBlocks
      rw [if_neg hh]
      dsimp only
      split
      · right; exact ⟨_, rfl⟩
      · split
        · right; exact ⟨_, rfl⟩
        · split
          · right; exact ⟨_, rfl⟩
          · split
            · left; rfl
            · split
              · right; exact ⟨_, rfl⟩
              · split
                · right; exact ⟨_, rfl⟩
                · split
                  · right; exact ⟨_, rfl⟩
                  · left; rfl
  constructor
  · by_cases hh : st.halt
    · left
      simp [unlockAndCreditMiners, hh]
    · unfold unlockAndCreditMiners
      rw [if_neg hh]
      dsimp only
      split
      · right; exact ⟨_, rfl⟩
      · split
        · right; exact ⟨_, rfl⟩
        · split
          · right; exact ⟨_, rfl⟩
          · split
            · left; rfl
            · split
              · right; exact ⟨_, rfl⟩
              · split
                · right; exact ⟨_, rfl⟩
                · split
                  · right; exact ⟨_, rfl⟩
                  · left; rfl
  constructor
  · intro m hh hp
    constructor
    · simp [unlockPendingBlocks, hh, hp]
    · simp [unlockAndCreditMiners, hh, hp]
  constructor
  · intro cur hh hp hparse
    constructor
    · simp [unlockPendingBlocks, hh, hp, hparse]
    · simp [unlockAndCreditMiners, hh, hp, hparse]
  constructor
  · intro m cur hgt hh hp hparse hgc
    simp [unlockPendingBlocks, hh, hp, hparse, hgc]
  constructor
  · intro e cur hgt cands tr hh hp hparse hgc hlen hscan
    simp [unlockPendingBlocks, hh, hp, hparse, hgc, hlen, hscan]
  constructor
  · intro m cur hgt cands result tr hh hp hparse hgc hlen hscan hwpo
    simp [unlockPendingBlocks, hh, hp, hparse, hgc, hlen, hscan, hwpo]
  constructor
  · intro e cur hgt cands result tr hh hp hparse hgc hlen hscan hwpo hcl
    simp [unlockPendingBlocks, hh, hp, hparse, hgc, hlen, hscan, hwpo, hcl]
  constructor
  · intro m cur hgt hh hp hparse hgi
    simp [unlockAndCreditMiners, hh, hp, hparse, hgi]
  constructor
  · intro e cur hgt imm tr hh hp hparse hgi hlen hscan
    simp [unlockAndCreditMiners, hh, hp, hparse, hgi, hlen, hscan]
  constructor
  · intro m cur hgt imm result tr otr hh hp hparse hgi hlen hscan hwol
    simp [unlockAndCreditMiners, hh, hp, hparse, hgi, hlen, hscan, hwol]
  · intro e cur hgt imm result tr otr hh hp hparse hgi hlen hscan hwol hcl
    simp [unlockAndCreditMiners, hh, hp, hparse, hgi, hlen, hscan, hwol, hcl]

/-- Witness for C6: with a failing pending-block fetch, both passes halt,
record the error, and make exactly one chain call. -/
theorem c6_halt_semantics_witness :
    unlockPendingBlocks testCfg testEnv c7Store ⟨false, none⟩
      = (⟨true, some (.chain "node down")⟩, [.getPendingBlock])
    ∧ unlockAndCreditMiners testCfg testEnv c7Store ⟨false, none⟩
      = (⟨true, some (.chain "node down")⟩, [.getPendingBlock]) :=
  (c6_halt_semantics testCfg testEnv c7Store ⟨false, none⟩).2.2.2.1 "node down" rfl rfl

/-- Chain oracle for the C6 counterexample: the pending block is available
and every height carries a matching block. -/
def c6Env : Env := { c5Env with getPendingBlock := .ok testBlock }

/-- Store oracle for the C6 counterexample: one candidate, empty round
shares, and a write_immature_error that returns an error. -/
def c6Store : Store :=
  { c7Store with getCandidates := fun _ => .ok [{ testCand with height := 16 }] }

/-- Counterexample to claim C6 as stated: the CandidateStore call
write_immature_error returns an error during Pass 1, yet the pass finishes
with halt still false and last_fail still unset — not every CandidateStore
error sets halt. -/
theorem c6_counterexample :
    c6Store.writeImmatureError { testCand with height := 16 } 0 1 = .error "marker failed"
    ∧ (unlockPendingBlocks testCfg c6Env c6Store ⟨false, none⟩).1 = ⟨false, none⟩ := by
  refine ⟨rfl, ?_⟩
  decide
